import Mathlib

/-
  Shallow embedding of the codna 3D code-biochemistry simulation
  (src/code_token.py, src/grid.py, src/physics.py, src/biochemistry.py).

  Conventions of the embedding:
  * Python `Token` objects are heap objects with reference identity; we model
    the heap as a map `Nat → Option Tok` and refer to tokens by their id.
  * Python floats are modelled as rationals `ℚ`; every arithmetic operation
    exercised by the theorems below is exact in both systems.
  * Python `int(x)` truncates toward zero; `pyInt` reproduces that.
  * Functions that recurse on mutable pointer structures (move_token /
    _handle_spillover, chain traversals, the redistribution loop) are given a
    fuel argument and return `none` when the fuel is exhausted, i.e. `none`
    witnesses that the Python code does not return within that many steps.
  * `random.choice` (push-aside target) and the irrational gravity velocity
    increment `0.1 * d / sqrt(dx^2+dy^2+dz^2)` are taken as parameters
    (`pick`, `grav`) of the physics step; every theorem quantifies over them
    or is proved for runs in which they are provably never consulted.
-/

namespace Codna

/-- Token type classification, from `Token._determine_type`. -/
inductive TokenType where
  | keyword
  | operator
  | punctuation
  | identifier
  | literal
  | unknown
deriving DecidableEq, Repr

open TokenType

/-- `Token.KEYWORDS` from code_token.py. -/
def KEYWORDS : List String :=
  ["if", "else", "for", "while", "function", "class", "return",
   "int", "float", "var", "let", "const"]

/-- `Token.OPERATORS` from code_token.py. -/
def OPERATORS : List String :=
  ["+", "-", "*", "/", "=", "==", "!=", "<", ">", "<=", ">=", "&&", "||"]

/-- `Token.PUNCTUATION` from code_token.py. -/
def PUNCT : List String :=
  ["(", ")", "\x7b", "\x7d", "[", "]", ";", ",", "."]

/-- `Token.MATCHING_PAIRS` from code_token.py. -/
def matchingPair : String → Option String
  | "(" => some ")"
  | "\x7b" => some "\x7d"
  | "[" => some "]"
  | _ => none

/-- A token object: the fields of `Token.__init__` that the engine reads.
`ty` and `damaged` model `metadata['type']` and `metadata['damaged']`;
`chainId`, `nextTok`, `prevTok` model `chain_id`, `next_token`, `prev_token`
(pointers become token ids). -/
structure Tok where
  value : String
  energy : ℤ
  x : ℚ
  y : ℚ
  z : ℚ
  vx : ℚ
  vy : ℚ
  vz : ℚ
  ty : TokenType
  damaged : Bool
  chainId : Option ℕ
  nextTok : Option ℕ
  prevTok : Option ℕ
deriving Repr

/-- `token.mass` is the length of its value string (`Token.__init__`). -/
def Tok.mass (t : Tok) : ℤ := (t.value.length : ℤ)

/-- `Token.can_bond_with`, translated clause by clause; each Python `return`
becomes one `if` layer, so falling through a non-matching clause continues to
the next one exactly as in the source. -/
def canBondWith (a b : Tok) : Bool × ℤ :=
  if a.damaged || b.damaged then (false, 0)
  else if (matchingPair a.value).any (fun m => b.value = m) then (true, 100)
  else if a.ty = keyword ∧ a.value ∈ ["if", "while", "for"] ∧ b.value = "(" then (true, 90)
  else if a.ty = keyword ∧ a.value ∈ ["int", "float", "var", "let", "const"] ∧
      b.ty = identifier then (true, 85)
  else if a.ty = operator ∧ a.value = "=" ∧ (b.ty = identifier ∨ b.ty = literal) then (true, 80)
  else if a.ty = operator ∧ a.value ∈ ["+", "-", "*", "/", "==", "!=", "<", ">"] ∧
      (b.ty = identifier ∨ b.ty = literal) then (true, 75)
  else if a.value = "(" ∧ (b.ty = identifier ∨ b.ty = literal ∨ b.ty = keyword) then (true, 70)
  else if a.value = "," ∧ (b.ty = identifier ∨ b.ty = literal) then (true, 60)
  else if (a.ty = identifier ∨ a.ty = literal) ∧
      b.value ∈ ["+", "-", "*", "/", "=", ";", ",", ")"] then (true, 50)
  else (false, 0)

/-- The mutually exclusive category sets of `Token.is_mutually_exclusive_with`. -/
def exclusiveSets : List (List String) :=
  [["if", "while", "for"], ["int", "float", "var"], ["++", "--"], ["&&", "||"]]

/-- `Token.is_mutually_exclusive_with`. -/
def isMutuallyExclusiveWith (a b : Tok) : Bool :=
  exclusiveSets.any (fun s => a.value ∈ s && b.value ∈ s && a.value ≠ b.value)

/-- `BiochemistryEngine._check_grammar_rule`: the two sequential `if`
blocks that can return `False` (the matching-pairs block is a `pass`). -/
def checkGrammarRule (a b : Tok) : Bool :=
  if a.value ∈ ["int", "float", "char", "void"] ∧
      ¬(b.ty = identifier ∨ b.ty = punctuation) then false
  else if a.ty = operator ∧ a.value ∉ ["++", "--"] ∧
      ¬(b.ty = identifier ∨ b.ty = literal ∨ b.ty = punctuation) then false
  else true

/-- The bonding rule table exactly as the specification's claim words it:
damaged tokens never bond; then the first matching rule in the listed order
decides, with the strength-specific conditions phrased on token values and
on the identifier/literal/keyword classification of the follower. -/
def specBondRule (a b : Tok) : Bool × ℤ :=
  if a.damaged || b.damaged then (false, 0)
  else if (a.value = "(" ∧ b.value = ")") ∨ (a.value = "\x7b" ∧ b.value = "\x7d") ∨
      (a.value = "[" ∧ b.value = "]") then (true, 100)
  else if a.value ∈ ["if", "while", "for"] ∧ b.value = "(" then (true, 90)
  else if a.value ∈ ["int", "float", "var", "let", "const"] ∧ b.ty = identifier then (true, 85)
  else if a.value = "=" ∧ (b.ty = identifier ∨ b.ty = literal) then (true, 80)
  else if a.value ∈ ["+", "-", "*", "/", "==", "!=", "<", ">"] ∧
      (b.ty = identifier ∨ b.ty = literal) then (true, 75)
  else if a.value = "(" ∧ (b.ty = identifier ∨ b.ty = literal ∨ b.ty = keyword) then (true, 70)
  else if a.value = "," ∧ (b.ty = identifier ∨ b.ty = literal) then (true, 60)
  else if (a.ty = identifier ∨ a.ty = literal) ∧
      b.value ∈ ["+", "-", "*", "/", "=", ";", ",", ")"] then (true, 50)
  else (false, 0)

/-- Well-typedness of a token's stored classification: an undamaged token
whose value is one of the keyword (resp. operator) literals carries the
`keyword` (resp. `operator`) type. This is established by the `Token`
constructor via `_determine_type` and maintained by the damage subsystem,
which only degrades the type together with setting `damaged`, and restores
it on repair. -/
def TyConsistent (t : Tok) : Prop :=
  t.damaged = false →
    (t.value ∈ KEYWORDS → t.ty = keyword) ∧ (t.value ∈ OPERATORS → t.ty = operator)

/-! ## The spatial grid (src/grid.py) -/

/-- `Cell.MAX_CAPACITY`. -/
def MAX_CAPACITY : ℤ := 1000

/-- A grid cell: the member list (token ids, in Python list order) and the
running `current_mass`. -/
structure Cell where
  toks : List ℕ
  mass : ℤ
deriving Repr, DecidableEq

/-- Integer cell coordinates. -/
abbrev Pos3 := ℤ × ℤ × ℤ

/-- The whole mutable simulation state: grid dimensions, the array of cells
(as a total function on integer coordinates; out-of-range coordinates are
never touched), the token heap, and `Grid.all_tokens` (a Python set; we keep
a duplicate-free list whose order is never consulted — iteration orders are
explicit parameters). -/
structure GState where
  sx : ℤ
  sy : ℤ
  sz : ℤ
  cells : Pos3 → Cell
  toks : ℕ → Option Tok
  allToks : List ℕ

/-- Mass of the token object with the given id (0 if the id is unused,
which never occurs for ids stored in cells). -/
def massOf (s : GState) (i : ℕ) : ℤ := (s.toks i).elim 0 Tok.mass

/-- Python `int()` on a float: truncation toward zero. -/
def pyInt (q : ℚ) : ℤ := if 0 ≤ q then ⌊q⌋ else -⌊-q⌋

/-- `Grid.is_valid_position`. -/
def isValidPosition (s : GState) (x y z : ℤ) : Prop :=
  0 ≤ x ∧ x < s.sx ∧ 0 ≤ y ∧ y < s.sy ∧ 0 ≤ z ∧ z < s.sz

instance (s : GState) (x y z : ℤ) : Decidable (isValidPosition s x y z) := by
  unfold isValidPosition; infer_instance

/-- `Grid.get_cell`: the cell is identified by its coordinates (each Python
`Cell` object sits at exactly one coordinate triple, so object identity is
coordinate equality). -/
def getCell (s : GState) (x y z : ℤ) : Option Pos3 :=
  if isValidPosition s x y z then some (x, y, z) else none

/-- `Grid.get_cell_from_float`. -/
def getCellFromFloat (s : GState) (x y z : ℚ) : Option Pos3 :=
  getCell s (pyInt x) (pyInt y) (pyInt z)

/-- `Cell.can_accept`. -/
def canAccept (s : GState) (p : Pos3) (t : Tok) : Prop :=
  (s.cells p).mass + t.mass ≤ MAX_CAPACITY

instance (s : GState) (p : Pos3) (t : Tok) : Decidable (canAccept s p t) := by
  unfold canAccept; infer_instance

/-- Replace the cell at coordinates `p`. -/
def setCell (s : GState) (p : Pos3) (c : Cell) : GState :=
  { s with cells := fun q => if q = p then c else s.cells q }

/-- Update the token object with id `i`. -/
def modifyTok (s : GState) (i : ℕ) (f : Tok → Tok) : GState :=
  { s with toks := fun j => if j = i then (s.toks i).map f else s.toks j }

/-- Store a token object at id `i` (creation of a new `Token`). -/
def putTok (s : GState) (i : ℕ) (t : Tok) : GState :=
  { s with toks := fun j => if j = i then some t else s.toks j }

/-- `Cell.add_token`: append the token and add its mass if capacity allows. -/
def cellAddToken (s : GState) (p : Pos3) (i : ℕ) : Bool × GState :=
  match s.toks i with
  | none => (false, s)
  | some t =>
    if canAccept s p t then
      (true, setCell s p ⟨(s.cells p).toks ++ [i], (s.cells p).mass + t.mass⟩)
    else (false, s)

/-- `Cell.remove_token`: remove the first list occurrence and subtract the
token's mass. -/
def cellRemoveToken (s : GState) (p : Pos3) (i : ℕ) : Bool × GState :=
  if i ∈ (s.cells p).toks then
    (true, setCell s p ⟨(s.cells p).toks.erase i, (s.cells p).mass - massOf s i⟩)
  else (false, s)

/-- `set.discard` on `all_tokens`. -/
def discardAll (s : GState) (i : ℕ) : GState :=
  { s with allToks := s.allToks.filter (· ≠ i) }

/-- `set.add` on `all_tokens`. -/
def addAll (s : GState) (i : ℕ) : GState :=
  if i ∈ s.allToks then s else { s with allToks := i :: s.allToks }

/-- The 8 horizontal neighbour offsets, in the iteration order of the nested
`for dx in [-1,0,1]: for dy in [-1,0,1]` loops with `(0,0)` skipped. -/
def horizOffsets : List (ℤ × ℤ) :=
  [(-1, -1), (-1, 0), (-1, 1), (0, -1), (0, 1), (1, -1), (1, 0), (1, 1)]

/-- `Grid._find_adjacent_cell`: first horizontal neighbour that exists, is
not the excluded cell, and has `current_mass < MAX_CAPACITY`. -/
def findAdjacentCell (s : GState) (x y z : ℚ) (excl : Pos3) : Option Pos3 :=
  let ix := pyInt x
  let iy := pyInt y
  let iz := pyInt z
  (horizOffsets.map (fun d => (ix + d.1, iy + d.2, iz))).find?
    (fun p => decide (isValidPosition s p.1 p.2.1 p.2.2) && p ≠ excl &&
      decide ((s.cells p).mass < MAX_CAPACITY))

/-- `Token.get_chain_mass`: own mass plus the masses along `next_token`
links; `none` when the walk does not finish within `fuel` steps. -/
def chainMassFrom (s : GState) : Option ℕ → ℕ → Option ℤ
  | none, _ => some 0
  | some _, 0 => none
  | some i, fuel + 1 =>
    ((s.toks i).bind Tok.nextTok |> fun nxt => chainMassFrom s nxt fuel).map
      (fun m => massOf s i + m)

/-- `Cell.has_mutually_exclusive_token`: first member of the cell mutually
exclusive with the given token. -/
def hasMutuallyExclusiveToken (s : GState) (p : Pos3) (t : Tok) : Option ℕ :=
  (s.cells p).toks.find? (fun i => ((s.toks i).map (isMutuallyExclusiveWith · t)).getD false)

/-- Set a token's position fields (the `token.x = new_x` … assignments). -/
def setCoords (s : GState) (i : ℕ) (x y z : ℚ) : GState :=
  modifyTok s i (fun t => { t with x := x, y := y, z := z })

/-- The out-of-bounds branch of `Grid.move_token`: remove the token from
its old cell (when there is one) and discard it from the simulation. -/
def moveCull (s : GState) (i : ℕ) (oldC : Option Pos3) : GState :=
  discardAll
    (match oldC with
     | some oc => (cellRemoveToken s oc i).2
     | none => s) i

/-- The mutual-exclusion step of `Grid.move_token`: when the destination
holds a mutually exclusive token and the mover's chain is lighter, redirect
to an adjacent cell with headroom. The outer `none` means a chain-mass walk
hung; `some none` is the "no room to move" failure; `some (some …)` carries
the (possibly redirected) destination cell and coordinates. -/
def moveRedirect (s : GState) (i : ℕ) (t : Tok) (walkFuel : ℕ) (nc0 : Pos3)
    (nx ny nz : ℚ) : Option (Option (Pos3 × ℚ × ℚ × ℚ)) :=
  match hasMutuallyExclusiveToken s nc0 t with
  | some ei =>
    match chainMassFrom s (some i) walkFuel, chainMassFrom s (some ei) walkFuel with
    | some mi, some me =>
      if mi < me then
        match findAdjacentCell s nx ny nz nc0 with
        | some alt => some (some (alt, (alt.1 : ℚ), (alt.2.1 : ℚ), (alt.2.2 : ℚ)))
        | none => some none
      else some (some (nc0, nx, ny, nz))
    | _, _ => none
  | none => some (some (nc0, nx, ny, nz))

/-- The accepting branch of `Grid.move_token`: detach from the old cell when
it differs from the destination, append to the destination (the source drops
`add_token`'s return value), and commit the coordinates. -/
def moveProceed (s : GState) (i : ℕ) (oldC : Option Pos3) (nc : Pos3)
    (px py pz : ℚ) : GState :=
  let s1 := match oldC with
    | some oc => if oc ≠ nc then (cellRemoveToken s oc i).2 else s
    | none => s
  setCoords ((cellAddToken s1 nc i).2) i px py pz

/-- `Grid.move_token` (with `Grid._handle_spillover` inlined as its final
`match`): resolve the cells, cull on out-of-bounds, apply the
mutual-exclusion redirect, accept if capacity allows, otherwise spill over
into the first adjacent cell with headroom, recursing the move. `none`
means the Python recursion did not return within `fuel` nested calls. -/
def moveToken : ℕ → GState → ℕ → ℚ → ℚ → ℚ → Option (Bool × GState)
  | 0, _, _, _, _, _ => none
  | fuel + 1, s, i, nx, ny, nz =>
    match s.toks i with
    | none => none
    | some t =>
      let oldC := getCellFromFloat s t.x t.y t.z
      match getCellFromFloat s nx ny nz with
      | none => some (false, moveCull s i oldC)
      | some nc0 =>
        match moveRedirect s i t (fuel + 1) nc0 nx ny nz with
        | none => none
        | some none => some (false, s)   -- no room to move
        | some (some (nc, px, py, pz)) =>
          if canAccept s nc t then
            some (true, moveProceed s i oldC nc px py pz)
          else
            match findAdjacentCell s (nc.1 : ℚ) (nc.2.1 : ℚ) (nc.2.2 : ℚ) nc with
            | some adj => moveToken fuel s i (adj.1 : ℚ) (adj.2.1 : ℚ) (adj.2.2 : ℚ)
            | none => some (false, s)

/-- `Grid.add_token_to_grid`: token `i` must already exist as an object. -/
def addTokenToGrid (s : GState) (i : ℕ) : Bool × GState :=
  match s.toks i with
  | none => (false, s)
  | some t =>
    match getCellFromFloat s t.x t.y t.z with
    | none => (false, s)
    | some p =>
      match cellAddToken s p i with
      | (true, s1) => (true, addAll s1 i)
      | (false, s1) => (false, s1)

/-- `Grid.remove_token_from_grid`. -/
def removeTokenFromGrid (s : GState) (i : ℕ) : GState :=
  match s.toks i with
  | none => s
  | some t =>
    let s1 := match getCellFromFloat s t.x t.y t.z with
      | some p => (cellRemoveToken s p i).2
      | none => s
    discardAll s1 i

/-- The freshly initialised grid of `Grid.__init__`: all cells empty, no
tokens. -/
def gridInit (sx sy sz : ℤ) : GState :=
  { sx := sx, sy := sy, sz := sz, cells := fun _ => ⟨[], 0⟩,
    toks := fun _ => none, allToks := [] }

/-! ## The physics engine (src/physics.py) -/

/-- The velocity-application and friction tail of `Token.update_position`
(the velocity is decayed after having been added to the position, as in the
source). -/
def applyVelFriction (t : Tok) : Tok :=
  { t with x := t.x + t.vx, y := t.y + t.vy, z := t.z + t.vz,
           vx := t.vx * (9 / 10), vy := t.vy * (9 / 10), vz := t.vz * (9 / 10) }

/-- `Token.update_position` proper: the energy-driven vertical step, then
velocity application and friction decay. -/
def updatePosition (t : Tok) : Tok :=
  applyVelFriction
    (if 0 < t.energy then { t with z := t.z + 1, energy := t.energy - 1 }
     else { t with z := t.z - 1 })

/-- The candidate cells of `PhysicsEngine._push_token_aside`: the valid
horizontal neighbours with capacity, in loop order. -/
def pushCandidates (s : GState) (t : Tok) (c : Pos3) : List Pos3 :=
  (horizOffsets.map (fun d => (c.1 + d.1, c.2.1 + d.2, c.2.2))).filter
    (fun p => decide (isValidPosition s p.1 p.2.1 p.2.2) && decide (canAccept s p t))

/-- `PhysicsEngine._push_token_aside`; `pick` stands for `random.choice`
(only consulted when the candidate list is non-empty). -/
def pushTokenAside (pick : List Pos3 → Option Pos3) (fuel : ℕ) (s : GState) (o : ℕ)
    (c : Pos3) : Option GState :=
  match s.toks o with
  | none => some s
  | some t =>
    if (pushCandidates s t c).isEmpty then some s
    else match pick (pushCandidates s t c) with
      | some tc => (moveToken fuel s o (tc.1 : ℚ) (tc.2.1 : ℚ) (tc.2.2 : ℚ)).map (·.2)
      | none => some s

/-- The loop body of `PhysicsEngine._handle_collisions` over the snapshot of
the cell's member list: each sinking lower token costs the riser one energy
and is pushed aside. -/
def collideFold (pick : List Pos3 → Option Pos3) (fuel : ℕ) (i : ℕ) :
    List ℕ → Pos3 → GState → Option GState
  | [], _, s => some s
  | o :: rest, c, s =>
    if o = i then collideFold pick fuel i rest c s
    else
      match s.toks o, s.toks i with
      | some ot, some ti =>
        if ot.energy ≤ 0 ∧ ot.z < ti.z then
          (pushTokenAside pick fuel
              (modifyTok s i (fun t => { t with energy := t.energy - 1 })) o c).bind
            (collideFold pick fuel i rest c)
        else collideFold pick fuel i rest c s
      | _, _ => collideFold pick fuel i rest c s

/-- `PhysicsEngine._handle_collisions`. -/
def handleCollisions (pick : List Pos3 → Option Pos3) (fuel : ℕ) (s : GState) (i : ℕ)
    (oldZ : ℚ) : Option GState :=
  match s.toks i with
  | none => some s
  | some t =>
    if t.energy ≤ 0 then some s
    else if t.z ≤ oldZ then some s
    else match getCellFromFloat s t.x t.y t.z with
    | none => some s
    | some c => collideFold pick fuel i (s.cells c).toks c s

/-- The 26 neighbour offsets of the gravity scan, in the order of the nested
`for dx: for dy: for dz` loops with the centre skipped. -/
def cubeOffsets : List Pos3 :=
  ([-1, 0, 1] : List ℤ).flatMap fun dx =>
    ([-1, 0, 1] : List ℤ).flatMap fun dy =>
      ([-1, 0, 1] : List ℤ).filterMap fun dz =>
        if dx = 0 ∧ dy = 0 ∧ dz = 0 then none else some (dx, dy, dz)

/-- `PhysicsEngine._apply_gravity_pull`. The scan keeps the first cell that
strictly lowers the running minimum altitude, exactly as the source updates
`lowest_z`/`lowest_cell`. `grav dx dy dz` stands for the velocity increment
`(0.1*dx/dist, 0.1*dy/dist, 0.1*dz/dist)` with `dist = sqrt(dx²+dy²+dz²)`,
whose magnitude is irrational and hence kept as a parameter: the source
applies it only when `dist > 0`, i.e. when the squared distance is positive;
the theorems below quantify over `grav` or never reach this branch.
`gravityLowest` is the scan. -/
def gravityLowest (s : GState) (t : Tok) (c : Pos3) : ℤ × Option Pos3 :=
  cubeOffsets.foldl (fun (acc : ℤ × Option Pos3) d =>
    if isValidPosition s (c.1 + d.1) (c.2.1 + d.2.1) (c.2.2 + d.2.2) ∧
        c.2.2 + d.2.2 < acc.1 ∧ canAccept s (c.1 + d.1, c.2.1 + d.2.1, c.2.2 + d.2.2) t
    then (c.2.2 + d.2.2, some (c.1 + d.1, c.2.1 + d.2.1, c.2.2 + d.2.2)) else acc)
    ((c.2.2 : ℤ), (none : Option Pos3))

/-- The velocity update applied when the gravity scan found a lower cell. -/
def gravityKick (grav : ℚ → ℚ → ℚ → ℚ × ℚ × ℚ) (s : GState) (i : ℕ) (t : Tok)
    (lc : Pos3) : GState :=
  if 0 < ((lc.1 : ℚ) - t.x) ^ 2 + ((lc.2.1 : ℚ) - t.y) ^ 2 + ((lc.2.2 : ℚ) - t.z) ^ 2 then
    modifyTok s i (fun u =>
      { u with
        vx := u.vx + (grav ((lc.1 : ℚ) - t.x) ((lc.2.1 : ℚ) - t.y) ((lc.2.2 : ℚ) - t.z)).1,
        vy := u.vy + (grav ((lc.1 : ℚ) - t.x) ((lc.2.1 : ℚ) - t.y) ((lc.2.2 : ℚ) - t.z)).2.1,
        vz := u.vz + (grav ((lc.1 : ℚ) - t.x) ((lc.2.1 : ℚ) - t.y) ((lc.2.2 : ℚ) - t.z)).2.2 })
  else s

/-- `PhysicsEngine._apply_gravity_pull` proper. -/
def applyGravityPull (grav : ℚ → ℚ → ℚ → ℚ × ℚ × ℚ) (s : GState) (i : ℕ) : GState :=
  match s.toks i with
  | none => s
  | some t =>
    if 0 < t.energy then s
    else match getCellFromFloat s t.x t.y t.z with
    | none => s
    | some c =>
      match (gravityLowest s t c).2 with
      | none => s
      | some lc => gravityKick grav s i t lc

/-- The coordinate clamps `max(0, min(size - 1, …))` of
`PhysicsEngine.update_all_tokens`. -/
def clampToGrid (s : GState) (t : Tok) : ℚ × ℚ × ℚ :=
  (max 0 (min ((s.sx : ℚ) - 1) t.x),
   max 0 (min ((s.sy : ℚ) - 1) t.y),
   max 0 (min ((s.sz : ℚ) - 1) t.z))

/-- The tail of the per-token physics body after collisions and gravity:
clamp into bounds, the (dead) below-floor removal check, attempt the move,
and on failure revert the coordinates to the pre-tick `(ox, oy, oz)`. -/
def physMoveStep (fuel : ℕ) (s3 : GState) (i : ℕ) (ox oy oz : ℚ) :
    Option (Option Bool × GState) :=
  match s3.toks i with
  | none => none
  | some t3 =>
    if (clampToGrid s3 t3).2.2 < 0 then some (none, removeTokenFromGrid s3 i)
    else
      (moveToken fuel s3 i (clampToGrid s3 t3).1 (clampToGrid s3 t3).2.1
          (clampToGrid s3 t3).2.2).map fun r =>
        if r.1 then (some true, r.2)
        else (some false, setCoords r.2 i ox oy oz)

/-- The per-token body of `PhysicsEngine.update_all_tokens`, additionally
reporting what the `move_token` call returned (`none` when no move was
attempted because the token was already gone or was culled): skip tokens no
longer in `all_tokens`, store the old position, update the position, handle
collisions, apply gravity, then `physMoveStep`. -/
def updateTokFlag (grav : ℚ → ℚ → ℚ → ℚ × ℚ × ℚ) (pick : List Pos3 → Option Pos3)
    (fuel : ℕ) (s : GState) (i : ℕ) : Option (Option Bool × GState) :=
  if i ∈ s.allToks then
    match s.toks i with
    | none => none
    | some t0 =>
      (handleCollisions pick fuel (modifyTok s i updatePosition) i t0.z).bind fun s2 =>
        physMoveStep fuel (applyGravityPull grav s2 i) i t0.x t0.y t0.z
  else some (none, s)

/-- The per-token body of `PhysicsEngine.update_all_tokens`. -/
def updateTok (grav : ℚ → ℚ → ℚ → ℚ × ℚ × ℚ) (pick : List Pos3 → Option Pos3)
    (fuel : ℕ) (s : GState) (i : ℕ) : Option GState :=
  (updateTokFlag grav pick fuel s i).map (·.2)

/-- `PhysicsEngine.update_all_tokens`: fold the per-token update over the
snapshot `list(self.grid.all_tokens)`; the snapshot's iteration order is the
explicit `order` parameter, since Python set iteration order is fixed by
nothing the simulation controls. -/
def updateAllTokens (grav : ℚ → ℚ → ℚ → ℚ × ℚ × ℚ) (pick : List Pos3 → Option Pos3)
    (fuel : ℕ) (order : List ℕ) (s : GState) : Option GState :=
  order.foldlM (fun st i => updateTok grav pick fuel st i) s

/-- Python `min(tokens, key=lambda t: t.mass)`: the first member of minimal
mass. -/
def lightestToken (s : GState) : List ℕ → Option ℕ
  | [] => none
  | x :: xs => some (xs.foldl (fun best i => if massOf s i < massOf s best then i else best) x)

/-- `PhysicsEngine._redistribute_tokens`: the draining `while` loop of an
over-capacity cell, with `loopFuel` bounding the iterations. -/
def redistributeTokens (moveFuel : ℕ) : ℕ → GState → Pos3 → Option GState
  | 0, _, _ => none
  | loopFuel + 1, s, c =>
    if MAX_CAPACITY < (s.cells c).mass ∧ (s.cells c).toks ≠ [] then
      match lightestToken s (s.cells c).toks with
      | none => some s
      | some lt =>
        match findAdjacentCell s (c.1 : ℚ) (c.2.1 : ℚ) (c.2.2 : ℚ) c with
        | some adj =>
          (moveToken moveFuel s lt (adj.1 : ℚ) (adj.2.1 : ℚ) (adj.2.2 : ℚ)).bind fun r =>
            redistributeTokens moveFuel loopFuel r.2 c
        | none => some (removeTokenFromGrid s lt)
    else some s

/-- The cell coordinates visited by `PhysicsEngine.handle_spillover`, in
x-outer, y-middle, z-inner order. -/
def coordList (s : GState) : List Pos3 :=
  (List.range s.sx.toNat).flatMap fun x =>
    (List.range s.sy.toNat).flatMap fun y =>
      (List.range s.sz.toNat).map fun z => ((x : ℤ), (y : ℤ), (z : ℤ))

/-- `PhysicsEngine.handle_spillover`: the per-tick grid-wide sweep. -/
def handleSpilloverSweep (fuel : ℕ) (s : GState) : Option GState :=
  (coordList s).foldlM (fun st c =>
    if MAX_CAPACITY < (st.cells c).mass then redistributeTokens fuel fuel st c
    else pure st) s

/-! ## Chains and the biochemistry engine (src/biochemistry.py) -/

/-- A `TokenChain`: identifier, head token, ordered member list, validity
flag, last validation tick. -/
structure Chain where
  chainId : ℕ
  head : ℕ
  tokens : List ℕ
  isValid : Bool
  lastValidatedTick : ℕ
deriving Repr, DecidableEq

/-- The forward link of token `i` (`token.next_token`). -/
def nextOf (s : GState) (i : ℕ) : Option ℕ := (s.toks i).bind Tok.nextTok

/-- The backward link of token `i` (`token.prev_token`). -/
def prevOf (s : GState) (i : ℕ) : Option ℕ := (s.toks i).bind Tok.prevTok

/-- `Token.bond_to`: wire the forward/backward pointers, stamp the chain id
on both ends, return the generated energy (`2 - 1 = 1`). -/
def bondTo (s : GState) (a b : ℕ) (cid : ℕ) : ℤ × GState :=
  let s1 := modifyTok s a (fun t => { t with nextTok := some b, chainId := some cid })
  let s2 := modifyTok s1 b (fun t => { t with prevTok := some a, chainId := some cid })
  (1, s2)

/-- The heap after a fresh chain stamps `t1` with its id and `bond_to`
wires `t1 -> t2` (the composition arising in `_create_or_extend_chain`). -/
def bondedPairState (s : GState) (t1 t2 : ℕ) (cid : ℕ) : GState :=
  modifyTok (modifyTok (modifyTok s t1 (fun t => { t with chainId := some cid }))
    t1 (fun t => { t with nextTok := some t2, chainId := some cid }))
    t2 (fun t => { t with prevTok := some t1, chainId := some cid })

/-- `Token.break_bond`: if a forward link exists, clear the partner's back
link and then the own forward link. -/
def breakBond (s : GState) (a : ℕ) : GState :=
  match nextOf s a with
  | none => s
  | some b =>
    let s1 := modifyTok s b (fun t => { t with prevTok := none })
    modifyTok s1 a (fun t => { t with nextTok := none })

/-- The `while tail.next_token` loop of `TokenChain.add_token`. -/
def findTail (s : GState) : ℕ → ℕ → Option ℕ
  | i, 0 => match nextOf s i with
    | none => some i
    | some _ => none
  | i, fuel + 1 => match nextOf s i with
    | none => some i
    | some j => findTail s j fuel

/-- `TokenChain.add_token`: bond the new token to the tail and append it to
the member list; returns the generated energy as well. -/
def chainAddToken (s : GState) (ch : Chain) (t : ℕ) (fuel : ℕ) :
    Option (ℤ × Chain × GState) :=
  (findTail s ch.head fuel).map fun tail =>
    let r := bondTo s tail t ch.chainId
    (r.1, { ch with tokens := ch.tokens ++ [t] }, r.2)

/-- `TokenChain.remove_token`: drop the member from the list, sever the
incoming bond via the predecessor's `break_bond`, clear the successor's back
link, and clear the member's chain id. -/
def chainRemoveToken (s : GState) (ch : Chain) (t : ℕ) : Chain × GState :=
  if t ∈ ch.tokens then
    let ch1 := { ch with tokens := ch.tokens.erase t }
    let s1 := match prevOf s t with
      | some p => breakBond s p
      | none => s
    let s2 := match nextOf s1 t with
      | some n => modifyTok s1 n (fun u => { u with prevTok := none })
      | none => s1
    (ch1, modifyTok s2 t (fun u => { u with chainId := none }))
  else (ch, s)

/-- `TokenChain.__init__` with the chain id supplied by the caller (the
source draws it from the class-level counter). -/
def mkChain (s : GState) (cid : ℕ) (head : ℕ) : Chain × GState :=
  (⟨cid, head, [head], true, 0⟩,
   modifyTok s head (fun t => { t with chainId := some cid }))

/-- The forward traversal from a token, as a list of ids; `none` when it
does not finish within `fuel` steps. -/
def traverseFrom (s : GState) : Option ℕ → ℕ → Option (List ℕ)
  | none, _ => some []
  | some _, 0 => none
  | some i, fuel + 1 => (traverseFrom s (nextOf s i) fuel).map (i :: ·)

/-- The chain-consistency invariant of the specification: the recorded
member list is exactly the forward traversal from the head (in particular
the traversal terminates). -/
def ChainConsistent (s : GState) (ch : Chain) : Prop :=
  traverseFrom s (some ch.head) ch.tokens.length = some ch.tokens

/-- The link-strength test of `BiochemistryEngine._validate_grammar`:
`not can_bond or strength < 30`. -/
def strengthFlagged (a b : Tok) : Bool :=
  !(canBondWith a b).1 || decide ((canBondWith a b).2 < 30)

/-- The pairwise walk of `BiochemistryEngine._validate_grammar`, collecting
the flagged links in walk order (a link failing both checks is appended
twice, as in the source). -/
def validateWalk (s : GState) : Option ℕ → ℕ → Option (List (ℕ × ℕ))
  | none, _ => some []
  | some i, fuel =>
    match s.toks i with
    | none => none
    | some ti =>
      match ti.nextTok with
      | none => some []
      | some j =>
        match s.toks j with
        | none => none
        | some tj =>
          match fuel with
          | 0 => none
          | fuel' + 1 =>
            (validateWalk s (some j) fuel').map (fun rest =>
              (if strengthFlagged ti tj then [(i, j)] else []) ++
              (if !(checkGrammarRule ti tj) then [(i, j)] else []) ++ rest)

/-- `BiochemistryEngine._validate_grammar` starting from the chain head. -/
def validateGrammar (s : GState) (ch : Chain) (fuel : ℕ) : Option (List (ℕ × ℕ)) :=
  validateWalk s (some ch.head) fuel

/-- One iteration of `BiochemistryEngine._fix_grammar_errors`: break the
bond, scan the cell of the first token for a reconnection candidate bonding
above strength 50, rebond to it if found, else drop the second token from
the chain. -/
def fixErrorsStep (s : GState) (ch : Chain) (t1 t2 : ℕ) : Chain × GState :=
  let s1 := breakBond s t1
  match s1.toks t1 with
  | none => (ch, s1)
  | some tok1 =>
    match getCellFromFloat s1 tok1.x tok1.y tok1.z with
    | none => (ch, s1)
    | some c =>
      let cand := (s1.cells c).toks.find? (fun o =>
        o ≠ t1 && o ≠ t2 &&
          (match s1.toks o with
           | some ot => (canBondWith tok1 ot).1 && decide (50 < (canBondWith tok1 ot).2)
           | none => false))
      match cand with
      | some o => (ch, (bondTo s1 t1 o ch.chainId).2)
      | none => chainRemoveToken s1 ch t2

/-- `BiochemistryEngine._fix_grammar_errors` over the flagged pair list. -/
def fixGrammarErrors (s : GState) (ch : Chain) : List (ℕ × ℕ) → Chain × GState
  | [] => (ch, s)
  | (t1, t2) :: rest =>
    let r := fixErrorsStep s ch t1 t2
    fixGrammarErrors r.2 r.1 rest

/-- Stable insertion used to model Python's stable `sorted(..., key=...)`:
the new element goes after all previously placed elements with a key less
than or equal to its own. -/
def stableInsert (k : ℕ → ℤ) (x : ℕ) : List ℕ → List ℕ
  | [] => [x]
  | y :: ys => if k x < k y then x :: y :: ys else y :: stableInsert k x ys

/-- Stable sort by key, processing elements left to right; extensionally
equal to Python's `sorted` (which is the unique stable sort by key). -/
def sortByKey (k : ℕ → ℤ) (l : List ℕ) : List ℕ :=
  l.foldl (fun acc x => stableInsert k x acc) []

/-- `BiochemistryEngine._distribute_energy`: sort the members by current
energy ascending (stably) and give the first `energy` of them one unit
each. -/
def distributeEnergy (s : GState) (ch : Chain) (energy : ℤ) : GState :=
  let sorted := sortByKey (fun i => ((s.toks i).elim 0 Tok.energy)) ch.tokens
  (sorted.take energy.toNat).foldl
    (fun st i => modifyTok st i (fun t => { t with energy := t.energy + 1 })) s

/-- `BiochemistryEngine._create_or_extend_chain` (which, despite the name,
always creates a fresh two-token chain) followed by its energy
distribution. -/
def createOrExtendChain (s : GState) (t1 t2 : ℕ) (cid : ℕ) (fuel : ℕ) :
    Option (Chain × GState) :=
  let r := mkChain s cid t1
  (chainAddToken r.2 r.1 t2 fuel).map fun e =>
    (e.2.1, distributeEnergy e.2.2 e.2.1 e.1)

/-- Total energy of the simulation's tokens (`sum(t.energy for t in all_tokens)`). -/
def totalEnergy (s : GState) : ℤ :=
  (s.allToks.map (fun i => (s.toks i).elim 0 Tok.energy)).sum

/-! ## Well-formedness and reachability -/

/-- Sum of the member masses of a cell's token list. -/
def cellMassSum (s : GState) (p : Pos3) : ℤ :=
  ((s.cells p).toks.map (massOf s)).sum

/-- The capacity invariant of one cell: the recorded `current_mass` is the
sum of the member masses and does not exceed `MAX_CAPACITY`. -/
def CellWF (s : GState) (p : Pos3) : Prop :=
  (s.cells p).mass = cellMassSum s p ∧ (s.cells p).mass ≤ MAX_CAPACITY

/-- The capacity invariant over the whole grid. -/
def GridWF (s : GState) : Prop := ∀ p, CellWF s p

/-- The grid states the simulation can produce: the initial grid, closed
under creating a fresh token object (one not sitting in any cell), mutating
a token's non-`value` fields (position, velocity, energy, metadata, chain
links — everything the engines touch; `value`, hence mass, is never written
after construction), `Grid.add_token_to_grid`, `Grid.move_token`,
`Grid.remove_token_from_grid`, the physics pass, and the spillover sweep. -/
inductive Reachable : GState → Prop
  | init (sx sy sz : ℤ) : Reachable (gridInit sx sy sz)
  | spawn (s : GState) (i : ℕ) (t : Tok) (h : Reachable s)
      (hfresh : ∀ p, i ∉ (s.cells p).toks) : Reachable (putTok s i t)
  | mutate (s : GState) (i : ℕ) (f : Tok → Tok) (h : Reachable s)
      (hf : ∀ t, (f t).value = t.value) : Reachable (modifyTok s i f)
  | addTG (s : GState) (i : ℕ) (h : Reachable s) : Reachable (addTokenToGrid s i).2
  | move (fuel : ℕ) (s : GState) (i : ℕ) (nx ny nz : ℚ) (b : Bool) (s' : GState)
      (h : Reachable s) (hm : moveToken fuel s i nx ny nz = some (b, s')) : Reachable s'
  | remove (s : GState) (i : ℕ) (h : Reachable s) : Reachable (removeTokenFromGrid s i)
  | physics (grav : ℚ → ℚ → ℚ → ℚ × ℚ × ℚ) (pick : List Pos3 → Option Pos3)
      (fuel : ℕ) (order : List ℕ) (s s' : GState) (h : Reachable s)
      (hp : updateAllTokens grav pick fuel order s = some s') : Reachable s'
  | sweep (fuel : ℕ) (s s' : GState) (h : Reachable s)
      (hs : handleSpilloverSweep fuel s = some s') : Reachable s'

/-! ## Observation helpers and concrete states -/

/-- Whether token `i` is still in the global token set of a run's result. -/
def stillIn (r : Option GState) (i : ℕ) : Bool :=
  match r with
  | some s => i ∈ s.allToks
  | none => false

/-- The z coordinate of token `i` in a run's result. -/
def tokZof (r : Option GState) (i : ℕ) : Option ℚ :=
  r.bind fun s => (s.toks i).map Tok.z

/-- How many times id `i` occurs in the cell at `p` in a run's result. -/
def cellCountOf (r : Option GState) (p : Pos3) (i : ℕ) : Option ℕ :=
  r.map fun s => (s.cells p).toks.count i

/-- The recorded mass of the cell at `p` in a run's result. -/
def cellMassAt (r : Option GState) (p : Pos3) : Option ℤ :=
  r.map fun s => (s.cells p).mass

/-- A freshly constructed token with the given value, type, energy and
position (velocities zero, undamaged, no chain links), as `Token.__init__`
produces it. -/
def baseTok (v : String) (ty : TokenType) (e : ℤ) (x y z : ℚ) : Tok :=
  { value := v, energy := e, x := x, y := y, z := z, vx := 0, vy := 0, vz := 0,
    ty := ty, damaged := false, chainId := none, nextTok := none, prevTok := none }

/-- A filler value of mass `n`. -/
def fillStr (n : ℕ) : String := String.mk (List.replicate n 'a')

/-- The empty cell. -/
def emptyCell : Cell := ⟨[], 0⟩

/-- Gravity increment instance used to close counterexample statements; the
runs below provably never reach the gravity-increment branch, so any
instance yields the same run. -/
def gravZero : ℚ → ℚ → ℚ → ℚ × ℚ × ℚ := fun _ _ _ => (0, 0, 0)

/-- Push-aside chooser instance used to close counterexample statements;
the runs below provably never push any token aside. -/
def pickNone : List Pos3 → Option Pos3 := fun _ => none

/-- A 1×1×1 grid holding the single token `0` (value `"a"`, energy 0,
zero velocity) at the origin. -/
def sOne : GState :=
  { sx := 1, sy := 1, sz := 1,
    cells := fun p => if p = (0, 0, 0) then ⟨[0], 1⟩ else emptyCell,
    toks := fun i => if i = 0 then some (baseTok "a" identifier 0 0 0 0) else none,
    allToks := [0] }

/-- A 2×1×1 grid whose two cells each hold a mass-999 filler, with the
mass-2 token `0` about to be moved into cell `(0,0,0)`. -/
def s9bad : GState :=
  { sx := 2, sy := 1, sz := 1,
    cells := fun p =>
      if p = (0, 0, 0) then ⟨[1], 999⟩
      else if p = (1, 0, 0) then ⟨[2], 999⟩ else emptyCell,
    toks := fun i =>
      if i = 0 then some (baseTok "cc" identifier 0 0 0 0)
      else if i = 1 then some (baseTok (fillStr 999) identifier 0 0 0 0)
      else if i = 2 then some (baseTok (fillStr 999) identifier 0 1 0 0) else none,
    allToks := [0, 1, 2] }

/-- A 1×1×2 grid: a mass-997 filler on the floor, and the mass-2 token `0`
and mass-3 token `1` both sinking from the cell above; only one of them can
still fit into the floor cell. -/
def s5det : GState :=
  { sx := 1, sy := 1, sz := 2,
    cells := fun p =>
      if p = (0, 0, 0) then ⟨[2], 997⟩
      else if p = (0, 0, 1) then ⟨[0, 1], 5⟩ else emptyCell,
    toks := fun i =>
      if i = 0 then some (baseTok "bb" identifier 0 0 0 1)
      else if i = 1 then some (baseTok "ccc" identifier 0 0 0 1)
      else if i = 2 then some (baseTok (fillStr 997) identifier 0 0 0 0) else none,
    allToks := [0, 1, 2] }

/-- A 1×1×1 grid whose only cell is full (mass 1000), with token `0` of
mass 1 attempting to move into it: the move must fail with no fallback. -/
def sW8 : GState :=
  { sx := 1, sy := 1, sz := 1,
    cells := fun p => if p = (0, 0, 0) then ⟨[1], 1000⟩ else emptyCell,
    toks := fun i =>
      if i = 0 then some (baseTok "a" identifier 0 0 0 0)
      else if i = 1 then some (baseTok (fillStr 1000) identifier 0 0 0 0) else none,
    allToks := [0, 1] }

/-- A 1×1×1 grid with the two-member chain `int -> ;` (ids 0 and 1) and the
free identifier token `x` (id 2) all in the origin cell. -/
def s3fix : GState :=
  { sx := 1, sy := 1, sz := 1,
    cells := fun p => if p = (0, 0, 0) then ⟨[0, 1, 2], 3⟩ else emptyCell,
    toks := fun i =>
      if i = 0 then
        some { baseTok "int" keyword 0 0 0 0 with nextTok := some 1, chainId := some 7 }
      else if i = 1 then
        some { baseTok ";" punctuation 0 0 0 0 with prevTok := some 0, chainId := some 7 }
      else if i = 2 then some (baseTok "x" identifier 0 0 0 0) else none,
    allToks := [0, 1, 2] }

/-- The chain object recording `int -> ;` in `s3fix`. -/
def ch3 : Chain := ⟨7, 0, [0, 1], true, 0⟩

/-- The consecutive links of a chain's member sequence. -/
def chainPairs : List ℕ → List (ℕ × ℕ)
  | a :: b :: rest => (a, b) :: chainPairs (b :: rest)
  | _ => []

/-- A link is invalid as the specification's claim words it: the pair's bond
strength is below 30 (which includes all pairs that cannot bond, whose
strength is 0), or a grammar rule is violated — a type keyword
(`int`/`float`/`char`/`void` in the source's type-keyword set) not followed
by an identifier or punctuation, or an operator other than `++`/`--` not
followed by an identifier, literal, or punctuation. -/
def specBadLink (a b : Tok) : Prop :=
  (canBondWith a b).2 < 30 ∨
  (a.value ∈ ["int", "float", "char", "void"] ∧
    ¬(b.ty = identifier ∨ b.ty = punctuation)) ∨
  (a.ty = operator ∧ a.value ∉ ["++", "--"] ∧
    ¬(b.ty = identifier ∨ b.ty = literal ∨ b.ty = punctuation))

/-- `specBadLink` lifted to token ids via the heap. -/
def specBadLinkId (s : GState) (a b : ℕ) : Prop :=
  match s.toks a, s.toks b with
  | some ta, some tb => specBadLink ta tb
  | _, _ => False

instance (a b : Tok) : Decidable (specBadLink a b) := by
  unfold specBadLink; infer_instance

instance (s : GState) (a b : ℕ) : Decidable (specBadLinkId s a b) := by
  unfold specBadLinkId
  rcases s.toks a with _ | ta <;> rcases s.toks b with _ | tb <;> simp <;> infer_instance

instance (s : GState) (ch : Chain) : Decidable (ChainConsistent s ch) := by
  unfold ChainConsistent; infer_instance

instance (t : Tok) : Decidable (TyConsistent t) := by
  unfold TyConsistent; infer_instance

/-- A small reachable state: a 2×2×2 grid into which the single token `0`
(value `"a"`) has been spawned and admitted at the origin. -/
def wState1 : GState :=
  (addTokenToGrid (putTok (gridInit 2 2 2) 0 (baseTok "a" identifier 0 0 0 0)) 0).2

/-- A state holding the free tokens `(` (id 0, energy 5) and `)` (id 1,
energy 3) in the origin cell of a 1×1×1 grid. -/
def sC10 : GState :=
  { sx := 1, sy := 1, sz := 1,
    cells := fun p => if p = (0, 0, 0) then ⟨[0, 1], 2⟩ else emptyCell,
    toks := fun i =>
      if i = 0 then some (baseTok "(" punctuation 5 0 0 0)
      else if i = 1 then some (baseTok ")" punctuation 3 0 0 0) else none,
    allToks := [0, 1] }

/-! ## Basic lemmas -/

theorem massOf_nonneg (s : GState) (i : ℕ) : 0 ≤ massOf s i := by
  unfold massOf
  cases s.toks i with
  | none => simp
  | some t => simp [Tok.mass]

theorem pyInt_intCast (n : ℤ) : pyInt (n : ℚ) = n := by
  unfold pyInt
  by_cases h : 0 ≤ ((n : ℚ))
  · rw [if_pos h, Int.floor_intCast]
  · rw [if_neg h]
    have : -((n : ℚ)) = (((-n : ℤ) : ℚ)) := by push_cast; ring
    rw [this, Int.floor_intCast]; ring

theorem sum_map_erase (f : ℕ → ℤ) :
    ∀ (l : List ℕ) (i : ℕ), i ∈ l →
      ((l.erase i).map f).sum = (l.map f).sum - f i := by
  intro l
  induction l with
  | nil => intro i h; cases h
  | cons a l ih =>
    intro i h
    by_cases hai : a = i
    · subst hai
      simp [List.erase_cons_head]
    · have hil : i ∈ l := by
        rcases List.mem_cons.mp h with h1 | h1
        · exact absurd h1.symm hai
        · exact h1
      rw [List.erase_cons_tail]
      · simp only [List.map_cons, List.sum_cons, ih i hil]; ring
      · simp [hai]

/-! ## Preservation of the capacity invariant (claim C1 machinery) -/

theorem gridWF_congr (s s' : GState) (hc : s'.cells = s.cells)
    (hm : ∀ p : Pos3, ∀ j ∈ (s.cells p).toks, massOf s' j = massOf s j)
    (h : GridWF s) : GridWF s' := by
  intro p
  obtain ⟨h1, h2⟩ := h p
  constructor
  · rw [hc]
    unfold cellMassSum
    rw [hc, List.map_congr_left (hm p)]
    exact h1
  · rw [hc]; exact h2

theorem massOf_modifyTok (s : GState) (i : ℕ) (f : Tok → Tok)
    (hf : ∀ t, (f t).value = t.value) (j : ℕ) :
    massOf (modifyTok s i f) j = massOf s j := by
  unfold massOf modifyTok
  by_cases h : j = i
  · subst h
    simp only [if_pos rfl]
    cases s.toks j with
    | none => rfl
    | some t => simp [Tok.mass, hf t]
  · simp [h]

theorem wf_modifyTok (s : GState) (i : ℕ) (f : Tok → Tok)
    (hf : ∀ t, (f t).value = t.value) (h : GridWF s) : GridWF (modifyTok s i f) :=
  gridWF_congr s (modifyTok s i f) rfl
    (fun _ j _ => massOf_modifyTok s i f hf j) h

theorem wf_putTok (s : GState) (i : ℕ) (t : Tok)
    (hfresh : ∀ p, i ∉ (s.cells p).toks) (h : GridWF s) : GridWF (putTok s i t) := by
  refine gridWF_congr s (putTok s i t) rfl (fun p j hj => ?_) h
  have hji : j ≠ i := fun he => hfresh p (he ▸ hj)
  unfold massOf putTok
  simp [hji]

theorem wf_setCoords (s : GState) (i : ℕ) (x y z : ℚ) (h : GridWF s) :
    GridWF (setCoords s i x y z) :=
  wf_modifyTok s i _ (fun _ => rfl) h

theorem wf_discardAll (s : GState) (i : ℕ) (h : GridWF s) : GridWF (discardAll s i) :=
  gridWF_congr s (discardAll s i) rfl (fun _ _ _ => rfl) h

theorem wf_addAll (s : GState) (i : ℕ) (h : GridWF s) : GridWF (addAll s i) := by
  unfold addAll
  by_cases hm : i ∈ s.allToks
  · rwa [if_pos hm]
  · rw [if_neg hm]
    exact gridWF_congr s _ rfl (fun _ _ _ => rfl) h

theorem massOf_setCell (s : GState) (p : Pos3) (c : Cell) (j : ℕ) :
    massOf (setCell s p c) j = massOf s j := rfl

theorem cellMassSum_setCell (s : GState) (p q : Pos3) (c : Cell) :
    cellMassSum (setCell s p c) q =
      ((if q = p then c else s.cells q).toks.map (massOf s)).sum := rfl

theorem cells_setCell (s : GState) (p q : Pos3) (c : Cell) :
    (setCell s p c).cells q = if q = p then c else s.cells q := rfl

theorem wf_setCell (s : GState) (p : Pos3) (c : Cell) (h : GridWF s)
    (hsum : c.mass = (c.toks.map (massOf s)).sum) (hcap : c.mass ≤ MAX_CAPACITY) :
    GridWF (setCell s p c) := by
  intro q
  obtain ⟨h1, h2⟩ := h q
  constructor
  · rw [cells_setCell, cellMassSum_setCell]
    by_cases hqp : q = p
    · simp only [if_pos hqp]; exact hsum
    · simp only [if_neg hqp]; exact h1
  · rw [cells_setCell]
    by_cases hqp : q = p
    · rw [if_pos hqp]; exact hcap
    · rw [if_neg hqp]; exact h2

theorem wf_cellAddToken (s : GState) (p : Pos3) (i : ℕ) (h : GridWF s) :
    GridWF (cellAddToken s p i).2 := by
  unfold cellAddToken
  cases ht : s.toks i with
  | none => exact h
  | some t =>
    simp only
    by_cases hacc : canAccept s p t
    · rw [if_pos hacc]
      refine wf_setCell s p _ h ?_ ?_
      · have hmi : massOf s i = t.mass := by unfold massOf; rw [ht]; rfl
        show (s.cells p).mass + t.mass = (((s.cells p).toks ++ [i]).map (massOf s)).sum
        rw [List.map_append, List.sum_append, (h p).1]
        simp [hmi, cellMassSum]
      · exact hacc
    · rwa [if_neg hacc]

theorem wf_cellRemoveToken (s : GState) (p : Pos3) (i : ℕ) (h : GridWF s) :
    GridWF (cellRemoveToken s p i).2 := by
  unfold cellRemoveToken
  by_cases hm : i ∈ (s.cells p).toks
  · rw [if_pos hm]
    refine wf_setCell s p _ h ?_ ?_
    · show (s.cells p).mass - massOf s i = (((s.cells p).toks.erase i).map (massOf s)).sum
      rw [sum_map_erase (massOf s) (s.cells p).toks i hm, (h p).1]
      rfl
    · have := massOf_nonneg s i
      have := (h p).2
      show (s.cells p).mass - massOf s i ≤ MAX_CAPACITY
      omega
  · rwa [if_neg hm]

theorem wf_moveCull (s : GState) (i : ℕ) (oldC : Option Pos3) (h : GridWF s) :
    GridWF (moveCull s i oldC) := by
  unfold moveCull
  cases oldC with
  | none => exact wf_discardAll s i h
  | some oc => exact wf_discardAll _ i (wf_cellRemoveToken s oc i h)

theorem wf_moveProceed (s : GState) (i : ℕ) (oldC : Option Pos3) (nc : Pos3)
    (px py pz : ℚ) (h : GridWF s) : GridWF (moveProceed s i oldC nc px py pz) := by
  unfold moveProceed
  have h1 : GridWF (match oldC with
      | some oc => if oc ≠ nc then (cellRemoveToken s oc i).2 else s
      | none => s) := by
    cases oldC with
    | none => exact h
    | some oc =>
      by_cases hne : oc ≠ nc
      · simp only [if_pos hne]; exact wf_cellRemoveToken s oc i h
      · simp only [if_neg hne]; exact h
  exact wf_setCoords _ i px py pz (wf_cellAddToken _ nc i h1)

theorem wf_moveToken :
    ∀ (fuel : ℕ) (s : GState) (i : ℕ) (nx ny nz : ℚ) (b : Bool) (s' : GState),
      moveToken fuel s i nx ny nz = some (b, s') → GridWF s → GridWF s' := by
  intro fuel
  induction fuel with
  | zero => intro s i nx ny nz b s' hm; simp [moveToken] at hm
  | succ k ih =>
    intro s i nx ny nz b s' hm h
    rw [moveToken] at hm
    rcases ht : s.toks i with _ | t
    · rw [ht] at hm; simp at hm
    · rw [ht] at hm
      simp only at hm
      rcases hnc : getCellFromFloat s nx ny nz with _ | nc0
      · rw [hnc] at hm
        simp only [Option.some.injEq, Prod.mk.injEq] at hm
        rw [← hm.2]
        exact wf_moveCull s i _ h
      · rw [hnc] at hm
        simp only at hm
        rcases hr : moveRedirect s i t (k + 1) nc0 nx ny nz with _ | r
        · rw [hr] at hm; simp at hm
        · rw [hr] at hm
          rcases r with _ | ⟨nc, px, py, pz⟩
          · simp only [Option.some.injEq, Prod.mk.injEq] at hm
            rw [← hm.2]; exact h
          · simp only at hm
            by_cases hacc : canAccept s nc t
            · rw [if_pos hacc] at hm
              simp only [Option.some.injEq, Prod.mk.injEq] at hm
              rw [← hm.2]
              exact wf_moveProceed s i _ nc px py pz h
            · rw [if_neg hacc] at hm
              rcases hadj : findAdjacentCell s (nc.1 : ℚ) (nc.2.1 : ℚ) (nc.2.2 : ℚ) nc
                with _ | adj
              · rw [hadj] at hm
                simp only [Option.some.injEq, Prod.mk.injEq] at hm
                rw [← hm.2]; exact h
              · rw [hadj] at hm
                exact ih s i _ _ _ b s' hm h

theorem wf_addTokenToGrid (s : GState) (i : ℕ) (h : GridWF s) :
    GridWF (addTokenToGrid s i).2 := by
  unfold addTokenToGrid
  rcases ht : s.toks i with _ | t
  · exact h
  · simp only
    rcases hp : getCellFromFloat s t.x t.y t.z with _ | p
    · exact h
    · simp only
      rcases hca : cellAddToken s p i with ⟨b, s1⟩
      have h1 : GridWF s1 := by
        have := wf_cellAddToken s p i h
        rwa [hca] at this
      cases b
      · exact h1
      · exact wf_addAll s1 i h1

theorem wf_removeTokenFromGrid (s : GState) (i : ℕ) (h : GridWF s) :
    GridWF (removeTokenFromGrid s i) := by
  unfold removeTokenFromGrid
  split
  · exact h
  · split
    · exact wf_discardAll _ i (wf_cellRemoveToken s _ i h)
    · exact wf_discardAll s i h

theorem wf_pushTokenAside (pick : List Pos3 → Option Pos3) (fuel : ℕ) (s : GState)
    (o : ℕ) (c : Pos3) (s' : GState) (hm : pushTokenAside pick fuel s o c = some s')
    (h : GridWF s) : GridWF s' := by
  unfold pushTokenAside at hm
  split at hm
  · cases hm; exact h
  · split at hm
    · cases hm; exact h
    · split at hm
      · rename_i t _ tc _
        rcases hmv : moveToken fuel s o (tc.1 : ℚ) (tc.2.1 : ℚ) (tc.2.2 : ℚ) with _ | r
        · rw [hmv] at hm; cases hm
        · rw [hmv] at hm
          simp only [Option.map_some', Option.some.injEq] at hm
          rw [← hm]
          exact wf_moveToken fuel s o _ _ _ r.1 r.2 (by rw [hmv]) h
      · cases hm; exact h

theorem wf_collideFold (pick : List Pos3 → Option Pos3) (fuel : ℕ) (i : ℕ) :
    ∀ (l : List ℕ) (c : Pos3) (s s' : GState),
      collideFold pick fuel i l c s = some s' → GridWF s → GridWF s' := by
  intro l
  induction l with
  | nil =>
    intro c s s' hm h
    simp only [collideFold, Option.some.injEq] at hm
    rwa [← hm]
  | cons o rest ih =>
    intro c s s' hm h
    rw [collideFold] at hm
    split at hm
    · exact ih c s s' hm h
    · split at hm
      · split at hm
        · rcases hps : pushTokenAside pick fuel
              (modifyTok s i fun t => { t with energy := t.energy - 1 }) o c with _ | s1
          · rw [hps] at hm; cases hm
          · rw [hps] at hm
            simp only [Option.some_bind] at hm
            have h1 : GridWF s1 :=
              wf_pushTokenAside pick fuel _ o c s1 hps
                (wf_modifyTok s i _ (fun _ => rfl) h)
            exact ih c s1 s' hm h1
        · exact ih c s s' hm h
      · exact ih c s s' hm h

theorem wf_handleCollisions (pick : List Pos3 → Option Pos3) (fuel : ℕ) (s : GState)
    (i : ℕ) (oldZ : ℚ) (s' : GState) (hm : handleCollisions pick fuel s i oldZ = some s')
    (h : GridWF s) : GridWF s' := by
  unfold handleCollisions at hm
  split at hm
  · cases hm; exact h
  · split at hm
    · cases hm; exact h
    · split at hm
      · cases hm; exact h
      · split at hm
        · cases hm; exact h
        · exact wf_collideFold pick fuel i _ _ s s' hm h

theorem wf_gravityKick (grav : ℚ → ℚ → ℚ → ℚ × ℚ × ℚ) (s : GState) (i : ℕ)
    (t : Tok) (lc : Pos3) (h : GridWF s) : GridWF (gravityKick grav s i t lc) := by
  unfold gravityKick
  split
  · exact wf_modifyTok s i _ (fun _ => rfl) h
  · exact h

theorem wf_applyGravityPull (grav : ℚ → ℚ → ℚ → ℚ × ℚ × ℚ) (s : GState) (i : ℕ)
    (h : GridWF s) : GridWF (applyGravityPull grav s i) := by
  unfold applyGravityPull
  split
  · exact h
  · split
    · exact h
    · split
      · exact h
      · split
        · exact h
        · exact wf_gravityKick grav s i _ _ h

theorem updatePosition_value (t : Tok) : (updatePosition t).value = t.value := by
  unfold updatePosition applyVelFriction
  split <;> rfl

theorem wf_physMoveStep (fuel : ℕ) (s3 : GState) (i : ℕ) (ox oy oz : ℚ)
    (fl : Option Bool) (s' : GState) (hm : physMoveStep fuel s3 i ox oy oz = some (fl, s'))
    (h : GridWF s3) : GridWF s' := by
  unfold physMoveStep at hm
  split at hm
  · cases hm
  · split at hm
    · cases hm
      exact wf_removeTokenFromGrid s3 i h
    · rename_i t3 _ _
      rcases hmv : moveToken fuel s3 i (clampToGrid s3 t3).1 (clampToGrid s3 t3).2.1
          (clampToGrid s3 t3).2.2 with _ | r
      · rw [hmv] at hm; cases hm
      · rw [hmv] at hm
        simp only [Option.map_some', Option.some.injEq] at hm
        have h4 : GridWF r.2 := wf_moveToken fuel s3 i _ _ _ r.1 r.2 (by rw [hmv]) h
        split at hm
        · rw [← (Prod.mk.injEq .. |>.mp hm).2]
          exact h4
        · rw [← (Prod.mk.injEq .. |>.mp hm).2]
          exact wf_setCoords r.2 i _ _ _ h4

theorem wf_updateTokFlag (grav : ℚ → ℚ → ℚ → ℚ × ℚ × ℚ) (pick : List Pos3 → Option Pos3)
    (fuel : ℕ) (s : GState) (i : ℕ) (fl : Option Bool) (s' : GState)
    (hm : updateTokFlag grav pick fuel s i = some (fl, s')) (h : GridWF s) : GridWF s' := by
  unfold updateTokFlag at hm
  split at hm
  · split at hm
    · cases hm
    · rename_i t0 _
      rcases hc : handleCollisions pick fuel (modifyTok s i updatePosition) i t0.z
        with _ | s2
      · rw [hc] at hm; cases hm
      · rw [hc] at hm
        simp only [Option.some_bind] at hm
        have h2 : GridWF s2 :=
          wf_handleCollisions pick fuel _ i t0.z s2 hc
            (wf_modifyTok s i updatePosition updatePosition_value h)
        exact wf_physMoveStep fuel _ i t0.x t0.y t0.z fl s' hm
          (wf_applyGravityPull grav s2 i h2)
  · cases hm
    exact h

theorem wf_updateTok (grav : ℚ → ℚ → ℚ → ℚ × ℚ × ℚ) (pick : List Pos3 → Option Pos3)
    (fuel : ℕ) (s : GState) (i : ℕ) (s' : GState)
    (hm : updateTok grav pick fuel s i = some s') (h : GridWF s) : GridWF s' := by
  unfold updateTok at hm
  rcases hf : updateTokFlag grav pick fuel s i with _ | r
  · rw [hf] at hm; cases hm
  · rw [hf] at hm
    simp only [Option.map_some', Option.some.injEq] at hm
    rw [← hm]
    exact wf_updateTokFlag grav pick fuel s i r.1 r.2 (by rw [hf]) h

theorem foldlM_preserve {α : Type} (P : GState → Prop) (f : GState → α → Option GState)
    (hf : ∀ st a st', f st a = some st' → P st → P st') :
    ∀ (l : List α) (s s' : GState), List.foldlM f s l = some s' → P s → P s' := by
  intro l
  induction l with
  | nil =>
    intro s s' h hp
    rw [List.foldlM_nil] at h
    have h2 : s = s' := Option.some.inj h
    rwa [← h2]
  | cons a l ih =>
    intro s s' h hp
    rw [List.foldlM_cons] at h
    rcases h1 : f s a with _ | s1
    · rw [h1] at h; simp at h
    · rw [h1] at h
      simp only [Option.bind_eq_bind, Option.some_bind] at h
      exact ih s1 s' h (hf s a s1 h1 hp)

theorem wf_updateAllTokens (grav : ℚ → ℚ → ℚ → ℚ × ℚ × ℚ)
    (pick : List Pos3 → Option Pos3) (fuel : ℕ) (order : List ℕ) (s s' : GState)
    (hm : updateAllTokens grav pick fuel order s = some s') (h : GridWF s) : GridWF s' :=
  foldlM_preserve GridWF _
    (fun st a st' h1 h2 => wf_updateTok grav pick fuel st a st' h1 h2) order s s' hm h

theorem wf_redistributeTokens (moveFuel : ℕ) :
    ∀ (loopFuel : ℕ) (s : GState) (c : Pos3) (s' : GState),
      redistributeTokens moveFuel loopFuel s c = some s' → GridWF s → GridWF s' := by
  intro loopFuel
  induction loopFuel with
  | zero => intro s c s' hm; simp [redistributeTokens] at hm
  | succ k ih =>
    intro s c s' hm h
    rw [redistributeTokens] at hm
    split at hm
    · split at hm
      · cases hm; exact h
      · split at hm
        · rename_i lt _ _ adj _
          rcases hmv : moveToken moveFuel s lt (adj.1 : ℚ) (adj.2.1 : ℚ) (adj.2.2 : ℚ)
            with _ | r
          · rw [hmv] at hm; cases hm
          · rw [hmv] at hm
            simp only [Option.some_bind] at hm
            exact ih r.2 c s' hm
              (wf_moveToken moveFuel s lt _ _ _ r.1 r.2 (by rw [hmv]) h)
        · cases hm
          exact wf_removeTokenFromGrid s _ h
    · cases hm; exact h

theorem wf_handleSpilloverSweep (fuel : ℕ) (s s' : GState)
    (hm : handleSpilloverSweep fuel s = some s') (h : GridWF s) : GridWF s' := by
  unfold handleSpilloverSweep at hm
  refine foldlM_preserve GridWF _ (fun st c st' h1 h2 => ?_) (coordList s) s s' hm h
  split at h1
  · exact wf_redistributeTokens fuel fuel st c st' h1 h2
  · simp only [pure, Option.some.injEq] at h1; rwa [← h1]

theorem gridWF_init (sx sy sz : ℤ) : GridWF (gridInit sx sy sz) := by
  intro p
  constructor
  · rfl
  · show (0 : ℤ) ≤ MAX_CAPACITY
    decide

theorem reachable_wf : ∀ s : GState, Reachable s → GridWF s := by
  intro s h
  induction h with
  | init sx sy sz => exact gridWF_init sx sy sz
  | spawn s i t h hfresh ih => exact wf_putTok s i t hfresh ih
  | mutate s i f h hf ih => exact wf_modifyTok s i f hf ih
  | addTG s i h ih => exact wf_addTokenToGrid s i ih
  | move fuel s i nx ny nz b s' h hm ih => exact wf_moveToken fuel s i nx ny nz b s' hm ih
  | remove s i h ih => exact wf_removeTokenFromGrid s i ih
  | physics grav pick fuel order s s' h hp ih =>
    exact wf_updateAllTokens grav pick fuel order s s' hp ih
  | sweep fuel s s' h hs ih => exact wf_handleSpilloverSweep fuel s s' hs ih

theorem sweep_id_of_wf (s : GState) (h : GridWF s) :
    ∀ fuel, handleSpilloverSweep fuel s = some s := by
  intro fuel
  unfold handleSpilloverSweep
  generalize coordList s = l
  induction l with
  | nil => rfl
  | cons c l ih =>
    rw [List.foldlM_cons]
    have hguard : ¬ (MAX_CAPACITY < (s.cells c).mass) := not_lt.mpr (h c).2
    rw [if_neg hguard]
    simpa using ih

set_option maxRecDepth 16000

/-! ## Claim C1 -/

/-- C1: at every tick boundary — i.e. in every state the simulation's grid
operations can produce — running the spillover sweep returns the state
unchanged (no cell is ever over capacity, since admission is guarded), and
afterwards every cell's recorded `current_mass` equals the sum of the masses
of the tokens in its token list and is at most `MAX_CAPACITY = 1000`. -/
theorem capacity_invariant_holds (s : GState) (h : Reachable s) :
    (∀ fuel, handleSpilloverSweep fuel s = some s) ∧
    ∀ p, (s.cells p).mass = cellMassSum s p ∧ (s.cells p).mass ≤ MAX_CAPACITY :=
  ⟨sweep_id_of_wf s (reachable_wf s h), reachable_wf s h⟩

/-- Witness for C1 at a concrete reachable state with one admitted token. -/
theorem capacity_invariant_holds_witness :
    handleSpilloverSweep 3 wState1 = some wState1 ∧
    (wState1.cells (0, 0, 0)).mass = cellMassSum wState1 (0, 0, 0) ∧
    (wState1.cells (0, 0, 0)).mass ≤ MAX_CAPACITY :=
  ⟨(capacity_invariant_holds wState1
      (Reachable.addTG _ 0 (Reachable.spawn _ 0 _ (Reachable.init 2 2 2)
        (fun _ => List.not_mem_nil 0)))).1 3,
   (capacity_invariant_holds wState1
      (Reachable.addTG _ 0 (Reachable.spawn _ 0 _ (Reachable.init 2 2 2)
        (fun _ => List.not_mem_nil 0)))).2 (0, 0, 0)⟩

/-! ## Claim C2 -/

/-- C2 (code bug): a token at z = 0 with energy 0 and no residual velocity,
alone on a 1×1×1 grid, sinks one step — yet after the physics pass it is
still in the global token set, at z = 0: the pass clamps the new z into
bounds before the `new_z < 0` removal check, so the below-floor removal is
dead code and the token is never removed (for any gravity increment and any
push-aside choice, neither of which is consulted). -/
theorem floor_sink_not_removed :
    ∀ (grav : ℚ → ℚ → ℚ → ℚ × ℚ × ℚ) (pick : List Pos3 → Option Pos3),
      stillIn (updateAllTokens grav pick 5 [0] sOne) 0 = true ∧
      tokZof (updateAllTokens grav pick 5 [0] sOne) 0 = some 0 := by
  intro grav pick
  constructor
  · with_unfolding_all rfl
  · with_unfolding_all rfl

/-! ## Claim C4 -/

/-- C4 (code bug): moving the sole token of the origin cell to position
`(0.5, 0, 0)` — which floors back to the same cell — reports success, but
afterwards the token sits twice in that cell's list and its mass is counted
twice: `move_token` skips the removal when old and new cell coincide yet
still appends. -/
theorem same_cell_move_duplicates :
    (moveToken 3 sOne 0 (1 / 2) 0 0).map (·.1) = some true ∧
    cellCountOf ((moveToken 3 sOne 0 (1 / 2) 0 0).map (·.2)) (0, 0, 0) 0 = some 2 ∧
    cellMassAt ((moveToken 3 sOne 0 (1 / 2) 0 0).map (·.2)) (0, 0, 0) = some 2 := by
  refine ⟨?_, ?_, ?_⟩ <;> with_unfolding_all rfl

/-! ## Claim C9 -/

/-- C9 (code bug): on the 2×1×1 grid `s9bad`, whose two cells both carry
mass 999 (< capacity, so each is a spillover candidate) but neither can
accept the mass-2 token `0`, `move_token` into the origin cell never
returns, for any recursion depth: the spillover redirection bounces between
the two cells forever. -/
theorem move_token_diverges : ∀ fuel, moveToken fuel s9bad 0 0 0 0 = none := by
  have key : ∀ n, moveToken n s9bad 0 0 0 0 = none ∧ moveToken n s9bad 0 1 0 0 = none := by
    intro n
    induction n with
    | zero => exact ⟨rfl, rfl⟩
    | succ k ih =>
      refine ⟨?_, ?_⟩
      · show moveToken k s9bad 0 1 0 0 = none
        exact ih.2
      · show moveToken k s9bad 0 0 0 0 = none
        exact ih.1
  exact fun fuel => (key fuel).1

/-! ## Claim C5 -/

/-- C5 is refuted: from the same initial state `s5det`, with the same
(never-consulted) randomness, two physics passes that differ only in the
iteration order over the global token set — both orders being permutations
of that set — put token `0` at different altitudes. The iteration order of
Python's `set` of tokens is fixed by nothing the simulation controls, so
seeded runs are not reproducible. -/
theorem determinism_fails_order_dependent :
    s5det.allToks = [0, 1, 2] ∧
    ([2, 0, 1] : List ℕ).Perm s5det.allToks ∧
    ([2, 1, 0] : List ℕ).Perm s5det.allToks ∧
    tokZof (updateAllTokens gravZero pickNone 6 [2, 0, 1] s5det) 0 = some 0 ∧
    tokZof (updateAllTokens gravZero pickNone 6 [2, 1, 0] s5det) 0 = some 1 := by
  refine ⟨rfl, by decide, by decide, ?_, ?_⟩
  · with_unfolding_all rfl
  · with_unfolding_all rfl

/-- C5 as amended: two runs with identical initial conditions, identical
randomness, identical fuel and additionally the same iteration order over
the token-set snapshot produce identical states. -/
theorem determinism_given_iteration_order (grav grav' : ℚ → ℚ → ℚ → ℚ × ℚ × ℚ)
    (pick pick' : List Pos3 → Option Pos3) (fuel fuel' : ℕ) (o o' : List ℕ)
    (s s' : GState) (hg : grav = grav') (hp : pick = pick') (hf : fuel = fuel')
    (ho : o = o') (hs : s = s') :
    updateAllTokens grav pick fuel o s = updateAllTokens grav' pick' fuel' o' s' := by
  subst hg; subst hp; subst hf; subst ho; subst hs; rfl

/-- Witness for the amended C5 at concrete identical inputs. -/
theorem determinism_given_iteration_order_witness :
    updateAllTokens gravZero pickNone 6 [2, 0, 1] s5det =
      updateAllTokens gravZero pickNone 6 [2, 0, 1] s5det :=
  determinism_given_iteration_order gravZero gravZero pickNone pickNone 6 6
    [2, 0, 1] [2, 0, 1] s5det s5det rfl rfl rfl rfl rfl

/-! ## Claim C8 machinery -/

theorem getCellFromFloat_of_valid (s : GState) (x y z : ℚ)
    (h : isValidPosition s (pyInt x) (pyInt y) (pyInt z)) :
    getCellFromFloat s x y z = some (pyInt x, pyInt y, pyInt z) := by
  unfold getCellFromFloat getCell
  rw [if_pos h]

theorem findAdjacentCell_valid (s : GState) (x y z : ℚ) (excl p : Pos3)
    (h : findAdjacentCell s x y z excl = some p) :
    isValidPosition s p.1 p.2.1 p.2.2 := by
  unfold findAdjacentCell at h
  have h2 := List.find?_some h
  simp only [Bool.and_eq_true, decide_eq_true_eq] at h2
  exact h2.1.1

theorem moveToken_fail_eq :
    ∀ (fuel : ℕ) (s : GState) (i : ℕ) (nx ny nz : ℚ) (s' : GState),
      isValidPosition s (pyInt nx) (pyInt ny) (pyInt nz) →
      moveToken fuel s i nx ny nz = some (false, s') → s' = s := by
  intro fuel
  induction fuel with
  | zero => intro s i nx ny nz s' _ hm; exact Option.noConfusion hm
  | succ k ih =>
    intro s i nx ny nz s' hval hm
    rw [moveToken] at hm
    rcases ht : s.toks i with _ | t
    · rw [ht] at hm; exact Option.noConfusion hm
    · rw [ht] at hm
      simp only at hm
      rw [getCellFromFloat_of_valid s nx ny nz hval] at hm
      simp only at hm
      rcases hr : moveRedirect s i t (k + 1) (pyInt nx, pyInt ny, pyInt nz) nx ny nz
        with _ | r
      · rw [hr] at hm; exact Option.noConfusion hm
      · rw [hr] at hm
        rcases r with _ | ⟨nc, px, py, pz⟩
        · simp only [Option.some.injEq, Prod.mk.injEq] at hm
          exact hm.2.symm
        · simp only at hm
          split at hm
          · simp at hm
          · rcases hadj : findAdjacentCell s (nc.1 : ℚ) (nc.2.1 : ℚ) (nc.2.2 : ℚ) nc
              with _ | adj
            · rw [hadj] at hm
              simp only [Option.some.injEq, Prod.mk.injEq] at hm
              exact hm.2.symm
            · rw [hadj] at hm
              have hv2 : isValidPosition s (pyInt (adj.1 : ℚ)) (pyInt (adj.2.1 : ℚ))
                  (pyInt (adj.2.2 : ℚ)) := by
                rw [pyInt_intCast, pyInt_intCast, pyInt_intCast]
                exact findAdjacentCell_valid s _ _ _ nc adj hadj
              exact ih s i _ _ _ s' hv2 hm

theorem toks_setCell (s : GState) (p : Pos3) (c : Cell) : (setCell s p c).toks = s.toks := rfl

theorem toks_discardAll (s : GState) (i : ℕ) : (discardAll s i).toks = s.toks := rfl

theorem toks_cellAddToken (s : GState) (p : Pos3) (i : ℕ) :
    ((cellAddToken s p i).2).toks = s.toks := by
  unfold cellAddToken
  rcases s.toks i with _ | t
  · rfl
  · simp only
    split <;> rfl

theorem toks_cellRemoveToken (s : GState) (p : Pos3) (i : ℕ) :
    ((cellRemoveToken s p i).2).toks = s.toks := by
  unfold cellRemoveToken
  split <;> rfl

theorem toks_moveCull (s : GState) (i : ℕ) (oldC : Option Pos3) :
    (moveCull s i oldC).toks = s.toks := by
  unfold moveCull
  rcases oldC with _ | oc
  · rfl
  · rw [toks_discardAll, toks_cellRemoveToken]

theorem isSome_modifyTok (s : GState) (i : ℕ) (f : Tok → Tok) (j : ℕ)
    (h : (s.toks j).isSome) : ((modifyTok s i f).toks j).isSome := by
  unfold modifyTok
  simp only
  by_cases hj : j = i
  · subst hj
    rw [if_pos rfl]
    rcases hsj : s.toks j with _ | t
    · rw [hsj] at h; cases h
    · rfl
  · rw [if_neg hj]
    exact h

theorem isSome_moveProceed (s : GState) (i : ℕ) (oldC : Option Pos3) (nc : Pos3)
    (px py pz : ℚ) (j : ℕ) (h : (s.toks j).isSome) :
    ((moveProceed s i oldC nc px py pz).toks j).isSome := by
  unfold moveProceed setCoords
  apply isSome_modifyTok
  rw [toks_cellAddToken]
  rcases oldC with _ | oc
  · exact h
  · simp only
    split
    · rw [toks_cellRemoveToken]; exact h
    · exact h

theorem moveToken_isSome :
    ∀ (fuel : ℕ) (s : GState) (i : ℕ) (nx ny nz : ℚ) (b : Bool) (s' : GState),
      moveToken fuel s i nx ny nz = some (b, s') →
      ∀ j, (s.toks j).isSome → (s'.toks j).isSome := by
  intro fuel
  induction fuel with
  | zero => intro s i nx ny nz b s' hm; exact Option.noConfusion hm
  | succ k ih =>
    intro s i nx ny nz b s' hm j hj
    rw [moveToken] at hm
    rcases ht : s.toks i with _ | t
    · rw [ht] at hm; exact Option.noConfusion hm
    · rw [ht] at hm
      simp only at hm
      rcases hnc : getCellFromFloat s nx ny nz with _ | nc0
      · rw [hnc] at hm
        simp only [Option.some.injEq, Prod.mk.injEq] at hm
        rw [← hm.2, toks_moveCull]
        exact hj
      · rw [hnc] at hm
        simp only at hm
        rcases hr : moveRedirect s i t (k + 1) nc0 nx ny nz with _ | r
        · rw [hr] at hm; exact Option.noConfusion hm
        · rw [hr] at hm
          rcases r with _ | ⟨nc, px, py, pz⟩
          · simp only [Option.some.injEq, Prod.mk.injEq] at hm
            rw [← hm.2]; exact hj
          · simp only at hm
            split at hm
            · simp only [Option.some.injEq, Prod.mk.injEq] at hm
              rw [← hm.2]
              exact isSome_moveProceed s i _ nc px py pz j hj
            · rcases hadj : findAdjacentCell s (nc.1 : ℚ) (nc.2.1 : ℚ) (nc.2.2 : ℚ) nc
                with _ | adj
              · rw [hadj] at hm
                simp only [Option.some.injEq, Prod.mk.injEq] at hm
                rw [← hm.2]; exact hj
              · rw [hadj] at hm
                exact ih s i _ _ _ b s' hm j hj

theorem isSome_pushTokenAside (pick : List Pos3 → Option Pos3) (fuel : ℕ) (s : GState)
    (o : ℕ) (c : Pos3) (s' : GState) (hm : pushTokenAside pick fuel s o c = some s')
    (j : ℕ) (hj : (s.toks j).isSome) : (s'.toks j).isSome := by
  unfold pushTokenAside at hm
  split at hm
  · cases hm; exact hj
  · split at hm
    · cases hm; exact hj
    · split at hm
      · rename_i t _ tc _
        rcases hmv : moveToken fuel s o (tc.1 : ℚ) (tc.2.1 : ℚ) (tc.2.2 : ℚ) with _ | r
        · rw [hmv] at hm; cases hm
        · rw [hmv] at hm
          simp only [Option.map_some', Option.some.injEq] at hm
          rw [← hm]
          exact moveToken_isSome fuel s o _ _ _ r.1 r.2 (by rw [hmv]) j hj
      · cases hm; exact hj

theorem isSome_collideFold (pick : List Pos3 → Option Pos3) (fuel : ℕ) (i : ℕ) :
    ∀ (l : List ℕ) (c : Pos3) (s s' : GState),
      collideFold pick fuel i l c s = some s' →
      ∀ j, (s.toks j).isSome → (s'.toks j).isSome := by
  intro l
  induction l with
  | nil =>
    intro c s s' hm j hj
    simp only [collideFold, Option.some.injEq] at hm
    rwa [← hm]
  | cons o rest ih =>
    intro c s s' hm j hj
    rw [collideFold] at hm
    split at hm
    · exact ih c s s' hm j hj
    · split at hm
      · split at hm
        · rcases hps : pushTokenAside pick fuel
              (modifyTok s i fun t => { t with energy := t.energy - 1 }) o c with _ | s1
          · rw [hps] at hm; cases hm
          · rw [hps] at hm
            simp only [Option.some_bind] at hm
            exact ih c s1 s' hm j
              (isSome_pushTokenAside pick fuel _ o c s1 hps j (isSome_modifyTok s i _ j hj))
        · exact ih c s s' hm j hj
      · exact ih c s s' hm j hj

theorem isSome_handleCollisions (pick : List Pos3 → Option Pos3) (fuel : ℕ) (s : GState)
    (i : ℕ) (oldZ : ℚ) (s' : GState) (hm : handleCollisions pick fuel s i oldZ = some s')
    (j : ℕ) (hj : (s.toks j).isSome) : (s'.toks j).isSome := by
  unfold handleCollisions at hm
  split at hm
  · cases hm; exact hj
  · split at hm
    · cases hm; exact hj
    · split at hm
      · cases hm; exact hj
      · split at hm
        · cases hm; exact hj
        · exact isSome_collideFold pick fuel i _ _ s s' hm j hj

theorem isSome_applyGravityPull (grav : ℚ → ℚ → ℚ → ℚ × ℚ × ℚ) (s : GState) (i : ℕ)
    (j : ℕ) (hj : (s.toks j).isSome) : ((applyGravityPull grav s i).toks j).isSome := by
  unfold applyGravityPull
  split
  · exact hj
  · split
    · exact hj
    · split
      · exact hj
      · split
        · exact hj
        · unfold gravityKick
          split
          · exact isSome_modifyTok s i _ j hj
          · exact hj

/-! ## Claim C8 -/

/-- C8: whenever `move_token` is called with an in-bounds destination and
returns failure, the entire state — the token's coordinates, every cell's
membership, and the global token set — is unchanged by the call (first
conjunct); and whenever the physics pass's per-token body observes such a
move failure, the token's coordinates afterwards are exactly its pre-tick
coordinates (second conjunct). -/
theorem move_failure_leaves_state_unchanged :
    (∀ (fuel : ℕ) (s : GState) (i : ℕ) (nx ny nz : ℚ) (s' : GState),
      isValidPosition s (pyInt nx) (pyInt ny) (pyInt nz) →
      moveToken fuel s i nx ny nz = some (false, s') → s' = s) ∧
    (∀ (grav : ℚ → ℚ → ℚ → ℚ × ℚ × ℚ) (pick : List Pos3 → Option Pos3) (fuel : ℕ)
      (s : GState) (i : ℕ) (t0 : Tok) (u : GState),
      s.toks i = some t0 →
      updateTokFlag grav pick fuel s i = some (some false, u) →
      (u.toks i).map (fun t => (t.x, t.y, t.z)) = some (t0.x, t0.y, t0.z)) := by
  constructor
  · exact moveToken_fail_eq
  · intro grav pick fuel s i t0 u h0 hm
    unfold updateTokFlag at hm
    split at hm
    · split at hm
      · cases hm
      · rename_i t0v heq
        rw [h0] at heq
        cases heq
        rcases hc : handleCollisions pick fuel (modifyTok s i updatePosition) i t0.z
          with _ | s2
        · rw [hc] at hm; cases hm
        · rw [hc] at hm
          simp only [Option.some_bind] at hm
          have hsome3 : ((applyGravityPull grav s2 i).toks i).isSome :=
            isSome_applyGravityPull grav s2 i i
              (isSome_handleCollisions pick fuel _ i t0.z s2 hc i
                (isSome_modifyTok s i updatePosition i (by rw [h0]; rfl)))
          unfold physMoveStep at hm
          rcases ht3 : (applyGravityPull grav s2 i).toks i with _ | t3
          · rw [ht3] at hsome3; cases hsome3
          · rw [ht3] at hm
            simp only at hm
            split at hm
            · cases hm
            · rcases hmv : moveToken fuel (applyGravityPull grav s2 i) i _ _ _ with _ | r
              · rw [hmv] at hm; cases hm
              · rw [hmv] at hm
                simp only [Option.map_some', Option.some.injEq] at hm
                split at hm
                · cases hm
                · have hru : u = setCoords r.2 i t0.x t0.y t0.z :=
                    ((Prod.mk.injEq .. |>.mp hm).2).symm
                  have hsr : (r.2.toks i).isSome :=
                    moveToken_isSome fuel _ i _ _ _ r.1 r.2 (by rw [hmv]) i hsome3
                  rcases hr2 : r.2.toks i with _ | tr
                  · rw [hr2] at hsr; cases hsr
                  · rw [hru]
                    unfold setCoords modifyTok
                    simp [hr2]
    · cases hm

/-- Witness for C8: on `sW8` the move into the full origin cell fails and
the state is returned untouched. -/
theorem move_failure_leaves_state_unchanged_witness :
    moveToken 3 sW8 0 0 0 0 = some (false, sW8) := by
  obtain ⟨s', hs'⟩ : ∃ s', moveToken 3 sW8 0 0 0 0 = some (false, s') :=
    ⟨_, by with_unfolding_all rfl⟩
  have heq : s' = sW8 :=
    move_failure_leaves_state_unchanged.1 3 sW8 0 0 0 0 s' (by decide) hs'
  rwa [heq] at hs'

/-! ## Claim C6 -/

theorem matchingPair_any_iff (a b : Tok) :
    ((matchingPair a.value).any (fun m => b.value = m) = true) ↔
      ((a.value = "(" ∧ b.value = ")") ∨ (a.value = "\x7b" ∧ b.value = "\x7d") ∨
        (a.value = "[" ∧ b.value = "]")) := by
  constructor
  · intro h
    rcases hmp : matchingPair a.value with _ | m
    · rw [hmp] at h; cases h
    · rw [hmp] at h
      simp only [Option.any_some, decide_eq_true_eq] at h
      unfold matchingPair at hmp
      split at hmp
      · rename_i hv
        exact Or.inl ⟨hv, by cases hmp; exact h⟩
      · rename_i hv
        exact Or.inr (Or.inl ⟨hv, by cases hmp; exact h⟩)
      · rename_i hv
        exact Or.inr (Or.inr ⟨hv, by cases hmp; exact h⟩)
      · cases hmp
  · rintro (⟨hv, hb⟩ | ⟨hv, hb⟩ | ⟨hv, hb⟩) <;>
      simp [matchingPair, hv, hb]

theorem mem_ctrl_keywords (v : String) (h : v ∈ (["if", "while", "for"] : List String)) :
    v ∈ KEYWORDS := by
  fin_cases h <;> decide

theorem mem_decl_keywords (v : String)
    (h : v ∈ (["int", "float", "var", "let", "const"] : List String)) : v ∈ KEYWORDS := by
  fin_cases h <;> decide

theorem mem_arith_operators (v : String)
    (h : v ∈ (["+", "-", "*", "/", "==", "!=", "<", ">"] : List String)) : v ∈ OPERATORS := by
  fin_cases h <;> decide

/-- C6: for every pair of tokens whose first member carries the type its
value determines (true of every constructor-built token, and maintained by
damage/repair), `can_bond_with` returns exactly the pair given by the
specification's rule table, first matching rule in order. -/
theorem can_bond_with_matches_spec_table (a b : Tok) (ha : TyConsistent a) :
    canBondWith a b = specBondRule a b := by
  unfold canBondWith specBondRule
  by_cases hd : (a.damaged || b.damaged) = true
  · rw [if_pos hd, if_pos hd]
  · have hd' : ¬(a.damaged || b.damaged) = true := hd
    simp only [Bool.or_eq_true, not_or, Bool.not_eq_true] at hd
    obtain ⟨hkw, hop⟩ := ha hd.1
    have h90 : (a.ty = TokenType.keyword ∧ a.value ∈ ["if", "while", "for"] ∧
        b.value = "(") ↔ (a.value ∈ ["if", "while", "for"] ∧ b.value = "(") := by
      constructor
      · exact fun h => h.2
      · exact fun h => ⟨hkw (mem_ctrl_keywords _ h.1), h⟩
    have h85 : (a.ty = TokenType.keyword ∧
        a.value ∈ ["int", "float", "var", "let", "const"] ∧ b.ty = identifier) ↔
        (a.value ∈ ["int", "float", "var", "let", "const"] ∧ b.ty = identifier) := by
      constructor
      · exact fun h => h.2
      · exact fun h => ⟨hkw (mem_decl_keywords _ h.1), h⟩
    have h80 : (a.ty = TokenType.operator ∧ a.value = "=" ∧
        (b.ty = identifier ∨ b.ty = literal)) ↔
        (a.value = "=" ∧ (b.ty = identifier ∨ b.ty = literal)) := by
      constructor
      · exact fun h => h.2
      · refine fun h => ⟨hop ?_, h⟩
        rw [h.1]; decide
    have h75 : (a.ty = TokenType.operator ∧
        a.value ∈ ["+", "-", "*", "/", "==", "!=", "<", ">"] ∧
        (b.ty = identifier ∨ b.ty = literal)) ↔
        (a.value ∈ ["+", "-", "*", "/", "==", "!=", "<", ">"] ∧
        (b.ty = identifier ∨ b.ty = literal)) := by
      constructor
      · exact fun h => h.2
      · exact fun h => ⟨hop (mem_arith_operators _ h.1), h⟩
    rw [if_neg hd', if_neg hd']
    simp only [matchingPair_any_iff a b, h90, h85, h80, h75]

/-- Witness for C6 at the concrete pair `(` / `)` (bond strength 100). -/
theorem can_bond_with_matches_spec_table_witness :
    TyConsistent (baseTok "(" punctuation 5 0 0 0) ∧
    canBondWith (baseTok "(" punctuation 5 0 0 0) (baseTok ")" punctuation 3 0 0 0) =
      specBondRule (baseTok "(" punctuation 5 0 0 0) (baseTok ")" punctuation 3 0 0 0) ∧
    canBondWith (baseTok "(" punctuation 5 0 0 0) (baseTok ")" punctuation 3 0 0 0) =
      (true, 100) :=
  ⟨by decide, can_bond_with_matches_spec_table _ _ (by decide), by decide⟩

/-! ## Claim C7 -/

theorem canBond_strength_of_not (a b : Tok) :
    (canBondWith a b).1 = false → (canBondWith a b).2 = 0 := by
  unfold canBondWith
  split_ifs <;> intro h <;> first | rfl | exact absurd h (by decide)

theorem strengthFlagged_iff (a b : Tok) :
    strengthFlagged a b = true ↔ (canBondWith a b).2 < 30 := by
  unfold strengthFlagged
  constructor
  · intro h
    rcases Bool.or_eq_true_iff.mp h with h | h
    · rw [canBond_strength_of_not a b (Bool.not_eq_true' .. |>.mp h)]
      decide
    · exact of_decide_eq_true h
  · intro h
    exact Bool.or_eq_true_iff.mpr (Or.inr (decide_eq_true h))

theorem checkGrammarRule_false_iff (a b : Tok) :
    (!(checkGrammarRule a b)) = true ↔
      ((a.value ∈ ["int", "float", "char", "void"] ∧
          ¬(b.ty = identifier ∨ b.ty = punctuation)) ∨
       (a.ty = operator ∧ a.value ∉ ["++", "--"] ∧
          ¬(b.ty = identifier ∨ b.ty = literal ∨ b.ty = punctuation))) := by
  unfold checkGrammarRule
  split_ifs with h1 h2
  · simpa using Or.inl h1
  · simpa using Or.inr h2
  · constructor
    · intro hc; cases hc
    · rintro (hc | hc)
      · exact absurd hc h1
      · exact absurd hc h2

theorem specBadLink_flag_iff (a b : Tok) :
    specBadLink a b ↔ (strengthFlagged a b = true ∨ (!(checkGrammarRule a b)) = true) := by
  unfold specBadLink
  rw [strengthFlagged_iff, checkGrammarRule_false_iff]

theorem specBadLinkId_iff (s : GState) (a b : ℕ) (ta tb : Tok)
    (ha : s.toks a = some ta) (hb : s.toks b = some tb) :
    specBadLinkId s a b ↔ specBadLink ta tb := by
  simp only [specBadLinkId, ha, hb]

theorem traverseFrom_some_shape (s : GState) (j : ℕ) (k : ℕ) (rest : List ℕ)
    (h : traverseFrom s (some j) k = some rest) : ∃ rest', rest = j :: rest' := by
  cases k with
  | zero => exact Option.noConfusion h
  | succ k' =>
    rw [traverseFrom] at h
    rcases htr : traverseFrom s (nextOf s j) k' with _ | r2
    · rw [htr] at h; cases h
    · rw [htr] at h
      simp only [Option.map_some', Option.some.injEq] at h
      exact ⟨r2, h.symm⟩

theorem validateWalk_spec :
    ∀ (fuel : ℕ) (s : GState) (hd : ℕ) (l : List ℕ),
      traverseFrom s (some hd) fuel = some l →
      (∀ j ∈ l, (s.toks j).isSome) →
      ∃ errs, validateWalk s (some hd) fuel = some errs ∧
        ∀ a b, ((a, b) ∈ errs ↔ ((a, b) ∈ chainPairs l ∧ specBadLinkId s a b)) := by
  intro fuel
  induction fuel with
  | zero => intro s hd l ht _; exact Option.noConfusion ht
  | succ k ih =>
    intro s hd l ht hsome
    rw [traverseFrom] at ht
    rcases htr : traverseFrom s (nextOf s hd) k with _ | rest
    · rw [htr] at ht; cases ht
    · rw [htr] at ht
      simp only [Option.map_some', Option.some.injEq] at ht
      subst ht
      rcases hth : s.toks hd with _ | thd
      · have hs := hsome hd (List.mem_cons_self _ _)
        rw [hth] at hs; cases hs
      · have hnext : nextOf s hd = (s.toks hd).bind Tok.nextTok := rfl
        rcases hnx : thd.nextTok with _ | j
        · -- chain ends at hd
          have hnone : nextOf s hd = none := by
            unfold nextOf
            rw [hth, Option.some_bind, hnx]
          have hrest : rest = [] := by
            rw [hnone] at htr
            rcases k with _ | k' <;> exact (Option.some.inj htr).symm
          subst hrest
          refine ⟨[], ?_, ?_⟩
          · simp only [validateWalk, hth, hnx]
          · intro a b
            simp [chainPairs]
        · -- link hd -> j
          have hjr : nextOf s hd = some j := by
            unfold nextOf
            rw [hth, Option.some_bind, hnx]
          rw [hjr] at htr
          obtain ⟨rest', hrest'⟩ := traverseFrom_some_shape s j k rest htr
          subst hrest'
          have hjs := hsome j (List.mem_cons_of_mem _ (List.mem_cons_self _ _))
          rcases htj : s.toks j with _ | tj
          · rw [htj] at hjs; cases hjs
          · rcases k with _ | k'
            · exact Option.noConfusion htr
            · obtain ⟨errs', hv', hiff'⟩ := ih s j (j :: rest') htr
                (fun x hx => hsome x (List.mem_cons_of_mem _ hx))
              refine ⟨(if strengthFlagged thd tj then [(hd, j)] else []) ++
                  (if !(checkGrammarRule thd tj) then [(hd, j)] else []) ++ errs', ?_, ?_⟩
              · simp only [validateWalk, hth, hnx, htj, hv', Option.map_some']
              · intro a b
                have hpairs : chainPairs (hd :: j :: rest') =
                    (hd, j) :: chainPairs (j :: rest') := rfl
                rw [hpairs]
                constructor
                · intro hmem
                  rcases List.mem_append.mp hmem with hmem1 | hmem2
                  · rcases List.mem_append.mp hmem1 with he1 | he2
                    · have h1 : strengthFlagged thd tj = true ∧ (a, b) = (hd, j) := by
                        by_cases hf : strengthFlagged thd tj = true
                        · rw [if_pos hf] at he1
                          exact ⟨hf, List.mem_singleton.mp he1⟩
                        · rw [if_neg hf] at he1; cases he1
                      obtain ⟨ha2, hb2⟩ := Prod.mk.inj h1.2
                      subst ha2; subst hb2
                      exact ⟨List.mem_cons_self _ _,
                        (specBadLinkId_iff s _ _ thd tj hth htj).mpr
                          ((specBadLink_flag_iff thd tj).mpr (Or.inl h1.1))⟩
                    · have h2 : (!(checkGrammarRule thd tj)) = true ∧ (a, b) = (hd, j) := by
                        by_cases hf : (!(checkGrammarRule thd tj)) = true
                        · rw [if_pos hf] at he2
                          exact ⟨hf, List.mem_singleton.mp he2⟩
                        · rw [if_neg hf] at he2; cases he2
                      obtain ⟨ha2, hb2⟩ := Prod.mk.inj h2.2
                      subst ha2; subst hb2
                      exact ⟨List.mem_cons_self _ _,
                        (specBadLinkId_iff s _ _ thd tj hth htj).mpr
                          ((specBadLink_flag_iff thd tj).mpr (Or.inr h2.1))⟩
                  · have := (hiff' a b).mp hmem2
                    exact ⟨List.mem_cons_of_mem _ this.1, this.2⟩
                · rintro ⟨hpair, hbad⟩
                  rcases List.mem_cons.mp hpair with hpair1 | hpair2
                  · -- (a, b) = (hd, j): the link is flagged
                    have hab : a = hd ∧ b = j := Prod.mk.injEq .. ▸ Prod.mk.inj hpair1
                    have hbad' : specBadLink thd tj := by
                      rw [hab.1, hab.2] at hbad
                      exact (specBadLinkId_iff s hd j thd tj hth htj).mp hbad
                    rcases (specBadLink_flag_iff thd tj).mp hbad' with hf | hf
                    · apply List.mem_append.mpr
                      left
                      apply List.mem_append.mpr
                      left
                      rw [if_pos hf, hab.1, hab.2]
                      exact List.mem_singleton.mpr rfl
                    · apply List.mem_append.mpr
                      left
                      apply List.mem_append.mpr
                      right
                      rw [if_pos hf, hab.1, hab.2]
                      exact List.mem_singleton.mpr rfl
                  · exact List.mem_append.mpr (Or.inr ((hiff' a b).mpr ⟨hpair2, hbad⟩))

/-- C7: for every chain whose forward traversal from the head terminates
with member list `l` (all of whose ids denote live tokens), the validation
walk returns, and it flags a link `(A, B)` if and only if `(A, B)` is a
consecutive link of the chain and either the pair's bond strength is below
30 (including pairs that cannot bond at all, whose strength is 0) or a
grammar rule is violated: `A` a type keyword (`int`/`float`/`char`/`void`)
not followed by an identifier or punctuation, or `A` an operator other than
`++`/`--` not followed by an identifier, literal, or punctuation. No other
link is flagged. -/
theorem validation_flags_iff (s : GState) (ch : Chain) (fuel : ℕ) (l : List ℕ)
    (ht : traverseFrom s (some ch.head) fuel = some l)
    (hsome : ∀ j ∈ l, (s.toks j).isSome) :
    ∃ errs, validateGrammar s ch fuel = some errs ∧
      ∀ a b, ((a, b) ∈ errs ↔ ((a, b) ∈ chainPairs l ∧ specBadLinkId s a b)) :=
  validateWalk_spec fuel s ch.head l ht hsome

/-- Witness for C7 on the concrete chain `int -> ;` of `s3fix`: the single
link is flagged (by bond strength 0 < 30), and the iff is checked at both a
flagged and an unflagged pair. -/
theorem validation_flags_iff_witness :
    validateGrammar s3fix ch3 2 = some [(0, 1)] ∧
    ((0, 1) ∈ [((0 : ℕ), (1 : ℕ))] ↔
      ((0, 1) ∈ chainPairs [0, 1] ∧ specBadLinkId s3fix 0 1)) ∧
    ((1, 2) ∈ [((0 : ℕ), (1 : ℕ))] ↔
      ((1, 2) ∈ chainPairs [0, 1] ∧ specBadLinkId s3fix 1 2)) := by
  obtain ⟨errs, hv, hiff⟩ :=
    validation_flags_iff s3fix ch3 2 [0, 1] (by with_unfolding_all rfl) (by decide)
  have herrs : errs = [(0, 1)] := by
    have hv2 : validateGrammar s3fix ch3 2 = some [(0, 1)] := by with_unfolding_all rfl
    rw [hv2] at hv
    exact (Option.some.inj hv).symm
  subst herrs
  exact ⟨hv, hiff 0 1, hiff 1 2⟩


/-! ## C3: chain traversal lemmas -/

theorem traverseFrom_none (s : GState) (fuel : ℕ) : traverseFrom s none fuel = some [] := by
  cases fuel <;> rfl

theorem nextOf_modifyTok (s : GState) (i : ℕ) (f : Tok → Tok)
    (hf : ∀ t, (f t).nextTok = t.nextTok) (j : ℕ) :
    nextOf (modifyTok s i f) j = nextOf s j := by
  unfold nextOf modifyTok
  simp only
  by_cases hj : j = i
  · subst hj
    rw [if_pos rfl]
    rcases s.toks j with _ | t
    · rfl
    · simp [hf t]
  · rw [if_neg hj]

theorem toks_modifyTok_self (s : GState) (i : ℕ) (f : Tok → Tok) (t : Tok)
    (h : s.toks i = some t) : (modifyTok s i f).toks i = some (f t) := by
  unfold modifyTok
  simp only [if_pos rfl]
  rw [h]
  rfl

theorem toks_modifyTok_ne (s : GState) (i : ℕ) (f : Tok → Tok) (j : ℕ) (h : j ≠ i) :
    (modifyTok s i f).toks j = s.toks j := by
  unfold modifyTok
  simp only
  rw [if_neg h]

theorem nextOf_bondTo_ne (s : GState) (a b cid : ℕ) (j : ℕ) (hja : j ≠ a) :
    nextOf (bondTo s a b cid).2 j = nextOf s j := by
  show nextOf (modifyTok
      (modifyTok s a fun t => { t with nextTok := some b, chainId := some cid })
      b fun t => { t with prevTok := some a, chainId := some cid }) j = nextOf s j
  rw [nextOf_modifyTok _ b (fun t => { t with prevTok := some a, chainId := some cid })
    (fun t => rfl) j]
  unfold nextOf
  rw [toks_modifyTok_ne s a _ j hja]

theorem nextOf_bondTo_self (s : GState) (a b cid : ℕ) (ha : (s.toks a).isSome = true) :
    nextOf (bondTo s a b cid).2 a = some b := by
  show nextOf (modifyTok
      (modifyTok s a fun t => { t with nextTok := some b, chainId := some cid })
      b fun t => { t with prevTok := some a, chainId := some cid }) a = some b
  rw [nextOf_modifyTok _ b (fun t => { t with prevTok := some a, chainId := some cid })
    (fun t => rfl) a]
  unfold nextOf
  rcases hs : s.toks a with _ | t
  · rw [hs] at ha; simp at ha
  · rw [toks_modifyTok_self s a _ t hs]
    rfl

theorem traverseFrom_congr (s s' : GState) (hnx : ∀ i, nextOf s' i = nextOf s i) :
    ∀ (fuel : ℕ) (c : Option ℕ), traverseFrom s' c fuel = traverseFrom s c fuel := by
  intro fuel
  induction fuel with
  | zero => intro c; rcases c with _ | i <;> rfl
  | succ k ih =>
    intro c
    rcases c with _ | i
    · rfl
    · rw [traverseFrom, traverseFrom, hnx i, ih]

theorem traverseFrom_unique (s : GState) :
    ∀ (f1 : ℕ) (c : Option ℕ) (l1 : List ℕ), traverseFrom s c f1 = some l1 →
      ∀ (f2 : ℕ) (l2 : List ℕ), traverseFrom s c f2 = some l2 → l1 = l2 := by
  intro f1
  induction f1 with
  | zero =>
    intro c l1 h1 f2 l2 h2
    rcases c with _ | i
    · rw [traverseFrom_none] at h1 h2
      rw [← Option.some.inj h1, ← Option.some.inj h2]
    · exact Option.noConfusion h1
  | succ k ih =>
    intro c l1 h1 f2 l2 h2
    rcases c with _ | i
    · rw [traverseFrom_none] at h1 h2
      rw [← Option.some.inj h1, ← Option.some.inj h2]
    · rcases f2 with _ | k2
      · exact Option.noConfusion h2
      · rw [traverseFrom] at h1 h2
        rcases htr1 : traverseFrom s (nextOf s i) k with _ | r1
        · rw [htr1] at h1; cases h1
        · rcases htr2 : traverseFrom s (nextOf s i) k2 with _ | r2
          · rw [htr2] at h2; cases h2
          · rw [htr1] at h1
            rw [htr2] at h2
            simp only [Option.map_some', Option.some.injEq] at h1 h2
            rw [← h1, ← h2, ih (nextOf s i) r1 htr1 k2 r2 htr2]

theorem traverseFrom_mem_tail (s : GState) :
    ∀ (fuel : ℕ) (i : ℕ) (l : List ℕ), traverseFrom s (some i) fuel = some l →
      ∀ j ∈ l, ∃ (f2 : ℕ) (l2 : List ℕ), f2 ≤ fuel ∧
        traverseFrom s (some j) f2 = some (j :: l2) ∧ (j :: l2) <:+ l := by
  intro fuel
  induction fuel with
  | zero => intro i l h; exact Option.noConfusion h
  | succ k ih =>
    intro i l h j hj
    rw [traverseFrom] at h
    rcases htr : traverseFrom s (nextOf s i) k with _ | rest
    · rw [htr] at h; cases h
    · rw [htr] at h
      simp only [Option.map_some', Option.some.injEq] at h
      subst h
      rcases List.mem_cons.mp hj with rfl | hjr
      · refine ⟨k + 1, rest, le_refl _, ?_, List.suffix_refl _⟩
        rw [traverseFrom, htr]
        rfl
      · rcases hnx : nextOf s i with _ | nx
        · rw [hnx, traverseFrom_none] at htr
          cases htr
          exact absurd hjr (List.not_mem_nil j)
        · rw [hnx] at htr
          obtain ⟨f2, l2, hle, htr2, hsuf⟩ := ih nx rest htr j hjr
          exact ⟨f2, l2, hle.trans (Nat.le_succ k), htr2,
            hsuf.trans (List.suffix_cons i rest)⟩

theorem traverseFrom_nodup (s : GState) :
    ∀ (fuel : ℕ) (c : Option ℕ) (l : List ℕ), traverseFrom s c fuel = some l → l.Nodup := by
  intro fuel
  induction fuel with
  | zero =>
    intro c l h
    rcases c with _ | i
    · rw [traverseFrom_none] at h
      rw [← Option.some.inj h]
      exact List.nodup_nil
    · exact Option.noConfusion h
  | succ k ih =>
    intro c l h
    rcases c with _ | i
    · rw [traverseFrom_none] at h
      rw [← Option.some.inj h]
      exact List.nodup_nil
    · rw [traverseFrom] at h
      rcases htr : traverseFrom s (nextOf s i) k with _ | rest
      · rw [htr] at h; cases h
      · rw [htr] at h
        simp only [Option.map_some', Option.some.injEq] at h
        subst h
        refine List.nodup_cons.mpr ⟨?_, ih (nextOf s i) rest htr⟩
        intro himem
        rcases hnx : nextOf s i with _ | nx
        · rw [hnx, traverseFrom_none] at htr
          cases htr
          exact absurd himem (List.not_mem_nil i)
        · rw [hnx] at htr
          obtain ⟨f2, l2, hle, htr2, hsuf⟩ := traverseFrom_mem_tail s k nx rest htr i himem
          have heq : i :: l2 = i :: rest :=
            traverseFrom_unique s f2 (some i) (i :: l2) htr2 (k + 1) (i :: rest)
              (by rw [traverseFrom, hnx, htr]; rfl)
          have hl2 : l2 = rest := (List.cons.inj heq).2
          subst hl2
          have hlen := List.IsSuffix.length_le hsuf
          rw [List.length_cons] at hlen
          omega

theorem traverseFrom_append (t2 cid : ℕ) :
    ∀ (fuel : ℕ) (s : GState) (hd : ℕ) (l : List ℕ) (tl : ℕ),
      traverseFrom s (some hd) fuel = some l →
      l.getLast? = some tl → l.Nodup → t2 ∉ l →
      nextOf s t2 = none → (s.toks tl).isSome = true →
      traverseFrom (bondTo s tl t2 cid).2 (some hd) (fuel + 1) = some (l ++ [t2]) := by
  intro fuel
  induction fuel with
  | zero => intro s hd l tl ht _ _ _ _ _; exact Option.noConfusion ht
  | succ k ih =>
    intro s hd l tl ht hlast hnd hnm hn2 hsm
    rw [traverseFrom] at ht
    rcases htr : traverseFrom s (nextOf s hd) k with _ | rest
    · rw [htr] at ht; cases ht
    · rw [htr] at ht
      simp only [Option.map_some', Option.some.injEq] at ht
      subst ht
      rcases hnx : nextOf s hd with _ | j
      · rw [hnx, traverseFrom_none] at htr
        cases htr
        have htl : hd = tl := by simpa using hlast
        subst htl
        have ht2hd : t2 ≠ hd := by
          intro he
          exact hnm (he ▸ List.mem_singleton.mpr rfl)
        rw [traverseFrom, nextOf_bondTo_self s hd t2 cid hsm,
          traverseFrom, nextOf_bondTo_ne s hd t2 cid t2 ht2hd, hn2, traverseFrom_none]
        rfl
      · rw [hnx] at htr
        obtain ⟨rest', hrr⟩ := traverseFrom_some_shape s j k rest htr
        subst hrr
        rw [List.getLast?_cons_cons] at hlast
        have htlmem : tl ∈ j :: rest' := List.mem_of_mem_getLast? hlast
        have hhd_ne_tl : hd ≠ tl := fun he => (List.nodup_cons.mp hnd).1 (he ▸ htlmem)
        have ih2 := ih s j (j :: rest') tl htr hlast (List.nodup_cons.mp hnd).2
          (fun hm => hnm (List.mem_cons_of_mem hd hm)) hn2 hsm
        rw [traverseFrom, nextOf_bondTo_ne s tl t2 cid hd hhd_ne_tl, hnx, ih2]
        rfl

theorem traverseFrom_singleton (s : GState) (i : ℕ) (h : nextOf s i = none) :
    traverseFrom s (some i) 1 = some [i] := by
  show (traverseFrom s (nextOf s i) 0).map (i :: ·) = some [i]
  rw [h, traverseFrom_none]
  rfl

theorem findTail_of_next_none (s : GState) (i : ℕ) (h : nextOf s i = none) :
    ∀ g, findTail s i g = some i := by
  intro g
  rcases g with _ | g2 <;> rw [findTail, h]

theorem findTail_of_traverse (s : GState) :
    ∀ (fuel : ℕ) (hd : ℕ) (l : List ℕ) (tl : ℕ),
      traverseFrom s (some hd) fuel = some l → l.getLast? = some tl →
      ∀ g, l.length ≤ g + 1 → findTail s hd g = some tl := by
  intro fuel
  induction fuel with
  | zero => intro hd l tl ht; exact Option.noConfusion ht
  | succ k ih =>
    intro hd l tl ht hlast g hg
    rw [traverseFrom] at ht
    rcases htr : traverseFrom s (nextOf s hd) k with _ | rest
    · rw [htr] at ht; cases ht
    · rw [htr] at ht
      simp only [Option.map_some', Option.some.injEq] at ht
      subst ht
      rcases hnx : nextOf s hd with _ | j
      · rw [hnx, traverseFrom_none] at htr
        cases htr
        have htl : hd = tl := by simpa using hlast
        subst htl
        exact findTail_of_next_none s hd hnx g
      · rw [hnx] at htr
        obtain ⟨rest', hrr⟩ := traverseFrom_some_shape s j k rest htr
        subst hrr
        rw [List.getLast?_cons_cons] at hlast
        rcases g with _ | g2
        · exfalso
          rw [List.length_cons, List.length_cons] at hg
          omega
        · rw [findTail, hnx]
          exact ih j (j :: rest') tl htr hlast g2
            (by rw [List.length_cons, List.length_cons] at hg; rw [List.length_cons]; omega)

theorem nextOf_foldl_energy (l : List ℕ) :
    ∀ (s : GState) (j : ℕ),
      nextOf (l.foldl (fun st i => modifyTok st i
        (fun t => { t with energy := t.energy + 1 })) s) j = nextOf s j := by
  induction l with
  | nil => intro s j; rfl
  | cons a l2 ih =>
    intro s j
    rw [List.foldl_cons, ih,
      nextOf_modifyTok s a (fun t => { t with energy := t.energy + 1 }) (fun t => rfl) j]

theorem nextOf_distributeEnergy (s : GState) (ch : Chain) (e : ℤ) (j : ℕ) :
    nextOf (distributeEnergy s ch e) j = nextOf s j :=
  nextOf_foldl_energy _ s j

theorem chainAddToken_consistent (s : GState) (ch : Chain) (t2 : ℕ) (τ2 : Tok) (fuel : ℕ)
    (hcon : ChainConsistent s ch)
    (hlive : ∀ j ∈ ch.tokens, (s.toks j).isSome = true)
    (ht2 : s.toks t2 = some τ2) (hn2 : τ2.nextTok = none)
    (hmem : t2 ∉ ch.tokens) (hfuel : ch.tokens.length ≤ fuel + 1) :
    ∃ e ch2 s2, chainAddToken s ch t2 fuel = some (e, ch2, s2) ∧ ChainConsistent s2 ch2 := by
  have hne : ch.tokens ≠ [] := by
    intro h0
    unfold ChainConsistent at hcon
    rw [h0] at hcon
    exact Option.noConfusion hcon
  rcases hgl : ch.tokens.getLast? with _ | tl
  · exact absurd (List.getLast?_eq_none_iff.mp hgl) hne
  have hnx2 : nextOf s t2 = none := by
    unfold nextOf
    rw [ht2, Option.some_bind, hn2]
  have hnodup : ch.tokens.Nodup :=
    traverseFrom_nodup s ch.tokens.length (some ch.head) ch.tokens hcon
  have hsm : (s.toks tl).isSome = true := hlive tl (List.mem_of_mem_getLast? hgl)
  have htail : findTail s ch.head fuel = some tl :=
    findTail_of_traverse s ch.tokens.length ch.head ch.tokens tl hcon hgl fuel hfuel
  refine ⟨1, { ch with tokens := ch.tokens ++ [t2] }, (bondTo s tl t2 ch.chainId).2, ?_, ?_⟩
  · unfold chainAddToken
    rw [htail]
    rfl
  · unfold ChainConsistent
    have happ := traverseFrom_append t2 ch.chainId ch.tokens.length s ch.head ch.tokens tl
      hcon hgl hnodup hmem hnx2 hsm
    simp only [List.length_append, List.length_cons, List.length_nil]
    exact happ

theorem createOrExtendChain_consistent (s : GState) (t1 t2 : ℕ) (τ1 τ2 : Tok)
    (cid fuel : ℕ) (ht1 : s.toks t1 = some τ1) (ht2 : s.toks t2 = some τ2)
    (hn1 : τ1.nextTok = none) (hn2 : τ2.nextTok = none) (hne : t1 ≠ t2) :
    ∃ ch2 s2, createOrExtendChain s t1 t2 cid fuel = some (ch2, s2) ∧
      ChainConsistent s2 ch2 := by
  have hnx1 : nextOf (modifyTok s t1 (fun t => { t with chainId := some cid })) t1 = none := by
    rw [nextOf_modifyTok s t1 (fun t => { t with chainId := some cid }) (fun t => rfl) t1]
    unfold nextOf
    rw [ht1, Option.some_bind, hn1]
  have hcon1 : ChainConsistent (modifyTok s t1 (fun t => { t with chainId := some cid }))
      ⟨cid, t1, [t1], true, 0⟩ := by
    unfold ChainConsistent
    exact traverseFrom_singleton _ t1 hnx1
  have hlive1 : ∀ j ∈ ([t1] : List ℕ),
      ((modifyTok s t1 (fun t => { t with chainId := some cid })).toks j).isSome = true := by
    intro j hj
    rw [List.mem_singleton.mp hj,
      toks_modifyTok_self s t1 (fun t => { t with chainId := some cid }) τ1 ht1]
    rfl
  have hs1t2 : (modifyTok s t1 (fun t => { t with chainId := some cid })).toks t2 = some τ2 := by
    rw [toks_modifyTok_ne s t1 (fun t => { t with chainId := some cid }) t2 (Ne.symm hne)]
    exact ht2
  obtain ⟨e, ch2, s2, heq, hcon2⟩ := chainAddToken_consistent
    (modifyTok s t1 (fun t => { t with chainId := some cid })) ⟨cid, t1, [t1], true, 0⟩
    t2 τ2 fuel hcon1 hlive1 hs1t2 hn2
    (fun hm => hne (List.mem_singleton.mp hm).symm)
    (Nat.succ_le_succ (Nat.zero_le fuel))
  refine ⟨ch2, distributeEnergy s2 ch2 e, ?_, ?_⟩
  · show (chainAddToken (modifyTok s t1 (fun t => { t with chainId := some cid }))
        (⟨cid, t1, [t1], true, 0⟩ : Chain) t2 fuel).map
        (fun e => (e.2.1, distributeEnergy e.2.2 e.2.1 e.1))
      = some (ch2, distributeEnergy s2 ch2 e)
    rw [heq]
    rfl
  · unfold ChainConsistent
    rw [traverseFrom_congr s2 (distributeEnergy s2 ch2 e) (nextOf_distributeEnergy s2 ch2 e)]
    exact hcon2

/-- C3 (amended): chain consistency — the recorded member list equals the
forward traversal from the head, which in particular terminates and repeats
no token — is preserved by chain creation
(`BiochemistryEngine._create_or_extend_chain`) and by chain extension
(`TokenChain.add_token`): extending a consistent chain whose members are
live by a fresh live token with no forward link yields a consistent chain,
and creating a two-token chain from two distinct live unlinked tokens
yields a consistent chain. (The grammar-repair step does NOT preserve the
invariant; see the counterexample.) -/
theorem chain_creation_extension_preserve_consistency :
    (∀ (s : GState) (ch : Chain) (t2 : ℕ) (τ2 : Tok) (fuel : ℕ),
      ChainConsistent s ch →
      (∀ j ∈ ch.tokens, (s.toks j).isSome = true) →
      s.toks t2 = some τ2 → τ2.nextTok = none → t2 ∉ ch.tokens →
      ch.tokens.length ≤ fuel + 1 →
      ∃ e ch2 s2, chainAddToken s ch t2 fuel = some (e, ch2, s2) ∧
        ChainConsistent s2 ch2) ∧
    (∀ (s : GState) (t1 t2 : ℕ) (τ1 τ2 : Tok) (cid fuel : ℕ),
      s.toks t1 = some τ1 → s.toks t2 = some τ2 →
      τ1.nextTok = none → τ2.nextTok = none → t1 ≠ t2 →
      ∃ ch2 s2, createOrExtendChain s t1 t2 cid fuel = some (ch2, s2) ∧
        ChainConsistent s2 ch2) :=
  ⟨fun s ch t2 τ2 fuel h1 h2 h3 h4 h5 h6 =>
      chainAddToken_consistent s ch t2 τ2 fuel h1 h2 h3 h4 h5 h6,
   fun s t1 t2 τ1 τ2 cid fuel h1 h2 h3 h4 h5 =>
      createOrExtendChain_consistent s t1 t2 τ1 τ2 cid fuel h1 h2 h3 h4 h5⟩

/-- Witness for the amended C3 theorem: creating a chain from the two free
punctuation tokens of `sC10` succeeds and yields a consistent chain. -/
theorem chain_creation_extension_preserve_consistency_witness :
    ∃ ch2 s2, createOrExtendChain sC10 0 1 42 0 = some (ch2, s2) ∧
      ChainConsistent s2 ch2 :=
  chain_creation_extension_preserve_consistency.2 sC10 0 1
    (baseTok "(" punctuation 5 0 0 0) (baseTok ")" punctuation 3 0 0 0) 42 0
    (by with_unfolding_all rfl) (by with_unfolding_all rfl) rfl rfl (by decide)

/-- C3 is refuted on the repair path: in `s3fix` the chain `int -> ;` is
consistent and its single link is flagged by validation; the repair
(`_fix_grammar_errors`) breaks the bond and rebonds `int` to the identifier
`x` (id 2) found in its cell, but never updates the member list — afterwards
the member list is still `[0, 1]` while the forward traversal from the head
is `[0, 2]`, so the chain-consistency invariant of the claim is violated. -/
theorem chain_consistency_breaks_after_repair :
    ChainConsistent s3fix ch3 ∧
    validateGrammar s3fix ch3 2 = some [(0, 1)] ∧
    (fixGrammarErrors s3fix ch3 [(0, 1)]).1.tokens = [0, 1] ∧
    traverseFrom (fixGrammarErrors s3fix ch3 [(0, 1)]).2
      (some (fixGrammarErrors s3fix ch3 [(0, 1)]).1.head) 2 = some [0, 2] ∧
    ¬ ChainConsistent (fixGrammarErrors s3fix ch3 [(0, 1)]).2
      (fixGrammarErrors s3fix ch3 [(0, 1)]).1 := by
  refine ⟨?_, ?_, ?_, ?_, ?_⟩
  · show traverseFrom s3fix (some ch3.head) ch3.tokens.length = some ch3.tokens
    with_unfolding_all rfl
  · with_unfolding_all rfl
  · with_unfolding_all rfl
  · with_unfolding_all rfl
  · intro hcon
    have hcomp : traverseFrom (fixGrammarErrors s3fix ch3 [(0, 1)]).2
        (some (fixGrammarErrors s3fix ch3 [(0, 1)]).1.head)
        (fixGrammarErrors s3fix ch3 [(0, 1)]).1.tokens.length = some [0, 2] := by
      with_unfolding_all rfl
    unfold ChainConsistent at hcon
    rw [hcomp] at hcon
    have h02 : ([0, 2] : List ℕ) = (fixGrammarErrors s3fix ch3 [(0, 1)]).1.tokens :=
      Option.some.inj hcon
    rw [show (fixGrammarErrors s3fix ch3 [(0, 1)]).1.tokens = [0, 1] from by
      with_unfolding_all rfl] at h02
    exact absurd h02 (by decide)

/-! ## C10: bond energy generation and distribution -/

theorem sum_plus_one_at (l : List ℕ) (g g2 : ℕ → ℤ) (i : ℕ)
    (hi : g2 i = g i + 1) (hother : ∀ j, j ≠ i → g2 j = g j) (hc : l.count i = 1) :
    (l.map g2).sum = (l.map g).sum + 1 := by
  induction l with
  | nil => simp at hc
  | cons a l2 ih =>
    rw [List.map_cons, List.map_cons, List.sum_cons, List.sum_cons]
    by_cases ha : a = i
    · subst ha
      have hc0 : l2.count a = 0 := by
        rw [List.count_cons_self] at hc
        omega
      have hnotm : a ∉ l2 := List.count_eq_zero.mp hc0
      have hmap : l2.map g2 = l2.map g :=
        List.map_congr_left (fun j hj => hother j (fun he => hnotm (he ▸ hj)))
      rw [hi, hmap]
      ring
    · have hc2 : l2.count i = 1 := by
        rw [List.count_cons_of_ne (Ne.symm ha)] at hc
        exact hc
      rw [hother a ha, ih hc2]
      ring

theorem distributeEnergy_pair (sB : GState) (t1 t2 : ℕ) (a1 a2 : Tok) (cid : ℕ)
    (h1 : sB.toks t1 = some a1) (h2 : sB.toks t2 = some a2) (hne : t1 ≠ t2) :
    (a2.energy < a1.energy →
      (distributeEnergy sB ⟨cid, t1, [t1, t2], true, 0⟩ 1).toks t1 = some a1 ∧
      (distributeEnergy sB ⟨cid, t1, [t1, t2], true, 0⟩ 1).toks t2
        = some { a2 with energy := a2.energy + 1 }) ∧
    (¬ a2.energy < a1.energy →
      (distributeEnergy sB ⟨cid, t1, [t1, t2], true, 0⟩ 1).toks t1
        = some { a1 with energy := a1.energy + 1 } ∧
      (distributeEnergy sB ⟨cid, t1, [t1, t2], true, 0⟩ 1).toks t2 = some a2) ∧
    (∀ j, j ≠ t1 → j ≠ t2 →
      (distributeEnergy sB ⟨cid, t1, [t1, t2], true, 0⟩ 1).toks j = sB.toks j) ∧
    (distributeEnergy sB ⟨cid, t1, [t1, t2], true, 0⟩ 1).allToks = sB.allToks := by
  have he1 : (sB.toks t1).elim 0 Tok.energy = a1.energy := by rw [h1]; rfl
  have he2 : (sB.toks t2).elim 0 Tok.energy = a2.energy := by rw [h2]; rfl
  have hs2 : distributeEnergy sB ⟨cid, t1, [t1, t2], true, 0⟩ 1 =
      modifyTok sB (if a2.energy < a1.energy then t2 else t1)
        (fun t => { t with energy := t.energy + 1 }) := by
    show ((if (sB.toks t2).elim 0 Tok.energy < (sB.toks t1).elim 0 Tok.energy
        then [t2, t1] else [t1, t2]).take (1 : ℤ).toNat).foldl
        (fun st i => modifyTok st i (fun t => { t with energy := t.energy + 1 })) sB
      = modifyTok sB (if a2.energy < a1.energy then t2 else t1)
        (fun t => { t with energy := t.energy + 1 })
    rw [he1, he2]
    by_cases hE : a2.energy < a1.energy
    · rw [if_pos hE, if_pos hE]
      rfl
    · rw [if_neg hE, if_neg hE]
      rfl
  rw [hs2]
  by_cases hE : a2.energy < a1.energy
  · rw [if_pos hE]
    exact ⟨fun _ => ⟨(toks_modifyTok_ne sB t2 _ t1 hne).trans h1,
        toks_modifyTok_self sB t2 _ a2 h2⟩,
      fun hcon => absurd hE hcon,
      fun j _ hj2 => toks_modifyTok_ne sB t2 _ j hj2, rfl⟩
  · rw [if_neg hE]
    exact ⟨fun hcon => absurd hcon hE,
      fun _ => ⟨toks_modifyTok_self sB t1 _ a1 h1,
        (toks_modifyTok_ne sB t1 _ t2 (Ne.symm hne)).trans h2⟩,
      fun j hj1 _ => toks_modifyTok_ne sB t1 _ j hj1, rfl⟩

/-- C10: `Token.bond_to` always returns exactly 1 unit of generated energy;
forming a two-token chain from two distinct live tokens (the first with no
forward link, each appearing once in the token census) succeeds, its member
list is the two tokens, the simulation's total token energy rises by
exactly 1, and that unit goes to the member with the strictly lowest
energy: if `t1`'s energy is strictly lower it is incremented and `t2`'s is
unchanged, and symmetrically. -/
theorem bond_energy_generation (s : GState) (t1 t2 : ℕ) (τ1 τ2 : Tok) (cid fuel : ℕ)
    (ht1 : s.toks t1 = some τ1) (ht2 : s.toks t2 = some τ2)
    (hn1 : τ1.nextTok = none) (hne : t1 ≠ t2)
    (hc1 : s.allToks.count t1 = 1) (hc2 : s.allToks.count t2 = 1) :
    (∀ (u : GState) (a b c : ℕ), (bondTo u a b c).1 = 1) ∧
    ∃ ch2 s2, createOrExtendChain s t1 t2 cid fuel = some (ch2, s2) ∧
      ch2.tokens = [t1, t2] ∧
      totalEnergy s2 = totalEnergy s + 1 ∧
      (τ1.energy < τ2.energy →
        (s2.toks t1).map Tok.energy = some (τ1.energy + 1) ∧
        (s2.toks t2).map Tok.energy = some τ2.energy) ∧
      (τ2.energy < τ1.energy →
        (s2.toks t1).map Tok.energy = some τ1.energy ∧
        (s2.toks t2).map Tok.energy = some (τ2.energy + 1)) := by
  refine ⟨fun u a b c => rfl, ?_⟩
  have hnx1 : nextOf (modifyTok s t1 (fun t => { t with chainId := some cid })) t1 = none := by
    rw [nextOf_modifyTok s t1 (fun t => { t with chainId := some cid }) (fun t => rfl) t1]
    unfold nextOf
    rw [ht1, Option.some_bind, hn1]
  have hft : findTail (modifyTok s t1 (fun t => { t with chainId := some cid })) t1 fuel
      = some t1 := findTail_of_next_none _ t1 hnx1 fuel
  have hBt1 : (bondedPairState s t1 t2 cid).toks t1
      = some { τ1 with nextTok := some t2, chainId := some cid } := by
    unfold bondedPairState
    rw [toks_modifyTok_ne _ t2 _ t1 hne,
      toks_modifyTok_self _ t1 _ _ (toks_modifyTok_self s t1
        (fun t => { t with chainId := some cid }) τ1 ht1)]
  have hBt2 : (bondedPairState s t1 t2 cid).toks t2
      = some { τ2 with prevTok := some t1, chainId := some cid } := by
    unfold bondedPairState
    rw [toks_modifyTok_self _ t2 _ τ2 (by
      rw [toks_modifyTok_ne _ t1 _ t2 (Ne.symm hne),
        toks_modifyTok_ne s t1 _ t2 (Ne.symm hne)]
      exact ht2)]
  have hBout : ∀ j, j ≠ t1 → j ≠ t2 → (bondedPairState s t1 t2 cid).toks j = s.toks j := by
    intro j hj1 hj2
    unfold bondedPairState
    rw [toks_modifyTok_ne _ t2 _ j hj2, toks_modifyTok_ne _ t1 _ j hj1,
      toks_modifyTok_ne s t1 _ j hj1]
  obtain ⟨hA, hB, hout, hall⟩ := distributeEnergy_pair (bondedPairState s t1 t2 cid) t1 t2
    { τ1 with nextTok := some t2, chainId := some cid }
    { τ2 with prevTok := some t1, chainId := some cid } cid hBt1 hBt2 hne
  refine ⟨⟨cid, t1, [t1, t2], true, 0⟩,
    distributeEnergy (bondedPairState s t1 t2 cid) ⟨cid, t1, [t1, t2], true, 0⟩ 1,
    ?_, rfl, ?_, ?_, ?_⟩
  · show ((findTail (modifyTok s t1 (fun t => { t with chainId := some cid })) t1 fuel).map
        (fun tail => ((1 : ℤ), (⟨cid, t1, [t1, t2], true, 0⟩ : Chain),
          (bondTo (modifyTok s t1 (fun t => { t with chainId := some cid })) tail t2 cid).2))).map
        (fun e => (e.2.1, distributeEnergy e.2.2 e.2.1 e.1))
      = some (⟨cid, t1, [t1, t2], true, 0⟩,
        distributeEnergy (bondedPairState s t1 t2 cid) ⟨cid, t1, [t1, t2], true, 0⟩ 1)
    rw [hft]
    rfl
  · have hallS : (distributeEnergy (bondedPairState s t1 t2 cid)
        ⟨cid, t1, [t1, t2], true, 0⟩ 1).allToks = s.allToks := hall
    unfold totalEnergy
    rw [hallS]
    by_cases hE : τ2.energy < τ1.energy
    · obtain ⟨h2t1, h2t2⟩ := hA hE
      refine sum_plus_one_at s.allToks _ _ t2 ?_ ?_ hc2
      · show ((distributeEnergy (bondedPairState s t1 t2 cid)
            ⟨cid, t1, [t1, t2], true, 0⟩ 1).toks t2).elim 0 Tok.energy
          = (s.toks t2).elim 0 Tok.energy + 1
        rw [h2t2, ht2]
        rfl
      · intro j hj
        show ((distributeEnergy (bondedPairState s t1 t2 cid)
            ⟨cid, t1, [t1, t2], true, 0⟩ 1).toks j).elim 0 Tok.energy
          = (s.toks j).elim 0 Tok.energy
        by_cases hj1 : j = t1
        · subst hj1
          rw [h2t1, ht1]
          rfl
        · rw [hout j hj1 hj, hBout j hj1 hj]
    · obtain ⟨h2t1, h2t2⟩ := hB hE
      refine sum_plus_one_at s.allToks _ _ t1 ?_ ?_ hc1
      · show ((distributeEnergy (bondedPairState s t1 t2 cid)
            ⟨cid, t1, [t1, t2], true, 0⟩ 1).toks t1).elim 0 Tok.energy
          = (s.toks t1).elim 0 Tok.energy + 1
        rw [h2t1, ht1]
        rfl
      · intro j hj
        show ((distributeEnergy (bondedPairState s t1 t2 cid)
            ⟨cid, t1, [t1, t2], true, 0⟩ 1).toks j).elim 0 Tok.energy
          = (s.toks j).elim 0 Tok.energy
        by_cases hj2 : j = t2
        · subst hj2
          rw [h2t2, ht2]
          rfl
        · rw [hout j hj hj2, hBout j hj hj2]
  · intro hlt
    obtain ⟨h2t1, h2t2⟩ := hB (lt_asymm hlt)
    constructor
    · rw [h2t1]
      rfl
    · rw [h2t2]
      rfl
  · intro hlt
    obtain ⟨h2t1, h2t2⟩ := hA hlt
    constructor
    · rw [h2t1]
      rfl
    · rw [h2t2]
      rfl

/-- Witness for C10 on `sC10`: bonding `(` (energy 5) with `)` (energy 3)
succeeds and raises the total token energy by exactly 1. -/
theorem bond_energy_generation_witness :
    ∃ ch2 s2, createOrExtendChain sC10 0 1 42 0 = some (ch2, s2) ∧
      totalEnergy s2 = totalEnergy sC10 + 1 := by
  obtain ⟨-, ch2, s2, hrun, -, htot, -, -⟩ :=
    bond_energy_generation sC10 0 1 (baseTok "(" punctuation 5 0 0 0)
      (baseTok ")" punctuation 3 0 0 0) 42 0
      (by with_unfolding_all rfl) (by with_unfolding_all rfl) rfl (by decide)
      (by decide) (by decide)
  exact ⟨ch2, s2, hrun, htot⟩

end Codna
